import Mathlib

set_option autoImplicit false

/-!
Shallow embedding of the bundle writers, path resolvers and the
Claude-to-Gemini converter of the compound-engineering-plugin repository
(`src/targets/opencode.ts`, `src/targets/gemini.ts`,
`src/converters/claude-to-gemini.ts`, `src/commands/convert.ts` and the
install command, `src/targets/index.ts`).

File-system effects are modelled as explicit state passing over a map from
path strings to file contents, together with an event trace recording each
file operation in program order.  JSON values are modelled at the granularity
the writers inspect: a top-level object is an association list (preserving key
order, as JavaScript objects do) whose values are either an uninterpreted
scalar or a one-level sub-object with uninterpreted field values — exactly the
shape the `mcpServers` merge manipulates.
-/

/-- A JSON value at the granularity the writers inspect: an uninterpreted
scalar (`atom`), or a one-level object with uninterpreted field values
(`objv`), which is how the `mcpServers` sub-object is consumed. -/
inductive JVal where
  | atom (s : String)
  | objv (fields : List (String × String))
deriving DecidableEq, Repr

/-- Content of a file on disk: either a parsed JSON object (an association
list of top-level keys, in insertion order) or raw text that does not parse
as JSON. -/
inductive FileContent where
  | jsonF (o : List (String × JVal))
  | raw (s : String)
deriving DecidableEq, Repr

/-- The mutable file system: a partial map from paths to contents. -/
structure FS where
  files : String → Option FileContent

/-- Ambient environment of a writer run: which destination paths have a
failing backup copy (fault injection for permission errors and the like), and
the timestamp string used for backup names during this run. -/
structure WEnv where
  copyFails : String → Bool
  now : String

/-- One awaited file operation, in program order. -/
inductive Ev where
  | mkdir (path : String)
  | copy (src dst : String)
  | write (path : String) (c : FileContent)
  | copyDir (src dst : String)
  | warn (msg : String)
deriving DecidableEq, Repr

/-- Writer state: the file system plus the trace of operations so far. -/
structure WState where
  fs : FS
  tr : List Ev

/-- Result of a writer call: final state plus an optional propagated error
(the thrown exception of the TypeScript code). -/
structure WOut where
  s : WState
  err : Option String

def setFile (fs : FS) (p : String) (c : FileContent) : FS :=
  ⟨fun q => if q = p then some c else fs.files q⟩

def pathExists (fs : FS) (p : String) : Bool := (fs.files p).isSome

def doMkdir (s : WState) (p : String) : WState :=
  { s with tr := s.tr ++ [Ev.mkdir p] }

def doWriteText (s : WState) (p : String) (content : String) : WState :=
  ⟨setFile s.fs p (FileContent.raw content), s.tr ++ [Ev.write p (FileContent.raw content)]⟩

def doWriteJson (s : WState) (p : String) (o : List (String × JVal)) : WState :=
  ⟨setFile s.fs p (FileContent.jsonF o), s.tr ++ [Ev.write p (FileContent.jsonF o)]⟩

def doCopyDir (s : WState) (src dst : String) : WState :=
  { s with tr := s.tr ++ [Ev.copyDir src dst] }

def doWarn (s : WState) (msg : String) : WState :=
  { s with tr := s.tr ++ [Ev.warn msg] }

/-- Result of the backup primitive. -/
inductive BackupRes where
  | ok (s : WState) (backupPath : Option String)
  | fail (s : WState) (msg : String)

/-- `backupFile` of `src/utils/files` is not among the provided sources.
Modelled from the spec: if no file exists at the destination this is a no-op
returning no backup path; otherwise the current content is copied to a
sibling path formed by appending `.bak.<timestamp>`, which is returned; a
failing copy (permission error and the like) propagates an error and the
subsequent overwrite must not proceed. -/
def backupFile (env : WEnv) (s : WState) (dest : String) : BackupRes :=
  match s.fs.files dest with
  | none => .ok s none
  | some content =>
    if env.copyFails dest then .fail s ("backup failed: " ++ dest)
    else
      let bpath := dest ++ ".bak." ++ env.now
      .ok ⟨setFile s.fs bpath content, s.tr ++ [Ev.copy dest bpath]⟩ (some bpath)

/-- `path.join` on the already-resolved path strings the writers build. -/
def pJoin (a b : String) : String := a ++ "/" ++ b

/-- `split` on a single separator character (JavaScript semantics:
`"" ↦ [""]`, separators at the edges produce empty segments). -/
def splitSep (sep : Char) : List Char → List (List Char)
  | [] => [[]]
  | c :: rest =>
    if c = sep then [] :: splitSep sep rest
    else
      match splitSep sep rest with
      | [] => [[c]]
      | seg :: segs => (c :: seg) :: segs

/-- `a` starts with `pre`, computed on the underlying character lists. -/
def strStartsWith (pre a : String) : Bool := pre.data.isPrefixOf a.data

/-- `path.basename`: the last `/`-separated segment. -/
def basename (p : String) : String := String.mk ((splitSep '/' p.data).getLastD [])

/-- JavaScript object spread `{...a, ...b}`: keys of `a` in order with values
overridden by `b` where shared, followed by the keys of `b` not in `a`. -/
def spreadObj {α : Type} (a b : List (String × α)) : List (String × α) :=
  (a.map fun kv =>
    match b.lookup kv.1 with
    | some v => (kv.1, v)
    | none => kv) ++ b.filter fun kv => (a.lookup kv.1).isNone

/-! ## Path resolvers (`resolveGeminiPaths`, `resolveOpenCodePaths`) -/

structure GeminiPaths where
  geminiDir : String
  skillsDir : String
  commandsDir : String
deriving DecidableEq, Repr

def resolveGeminiPaths (outputRoot : String) : GeminiPaths :=
  if basename outputRoot = ".gemini" then
    { geminiDir := outputRoot
      skillsDir := pJoin outputRoot "skills"
      commandsDir := pJoin outputRoot "commands" }
  else
    { geminiDir := pJoin outputRoot ".gemini"
      skillsDir := pJoin (pJoin outputRoot ".gemini") "skills"
      commandsDir := pJoin (pJoin outputRoot ".gemini") "commands" }

structure OpenCodePaths where
  root : String
  configPath : String
  agentsDir : String
  pluginsDir : String
  skillsDir : String
  commandDir : String
deriving DecidableEq, Repr

def resolveOpenCodePaths (outputRoot : String) : OpenCodePaths :=
  if basename outputRoot = "opencode" ∨ basename outputRoot = ".opencode" then
    { root := outputRoot
      configPath := pJoin outputRoot "opencode.json"
      agentsDir := pJoin outputRoot "agents"
      pluginsDir := pJoin outputRoot "plugins"
      skillsDir := pJoin outputRoot "skills"
      commandDir := pJoin outputRoot "commands" }
  else
    { root := outputRoot
      configPath := pJoin outputRoot "opencode.json"
      agentsDir := pJoin (pJoin outputRoot ".opencode") "agents"
      pluginsDir := pJoin (pJoin outputRoot ".opencode") "plugins"
      skillsDir := pJoin (pJoin outputRoot ".opencode") "skills"
      commandDir := pJoin (pJoin outputRoot ".opencode") "commands" }

/-! ## Bundles -/

structure NamedFile where
  name : String
  content : String
deriving DecidableEq, Repr

structure NamedDir where
  name : String
  sourceDir : String
deriving DecidableEq, Repr

structure GeminiBundle where
  generatedSkills : List NamedFile
  skillDirs : List NamedDir
  commands : List NamedFile
  mcpServers : Option (List (String × String))
deriving Repr

structure OpenCodeBundle where
  config : List (String × JVal)
  agents : List NamedFile
  commandFiles : List NamedFile
  plugins : List NamedFile
  skillDirs : List NamedDir
deriving Repr

/-! ## Gemini writer (`writeGeminiBundle`) -/

/-- The merge computed by `writeGeminiBundle` for `settings.json`:
`{ ...existingSettings, mcpServers: { ...existingMcp, ...bundle.mcpServers } }`
where `existingMcp` is the existing `mcpServers` sub-object when it is an
object, else `{}`. -/
def geminiMergeSettings (existingSettings : List (String × JVal))
    (incoming : List (String × String)) : List (String × JVal) :=
  let existingMcp :=
    match existingSettings.lookup "mcpServers" with
    | some (JVal.objv o) => o
    | _ => []
  spreadObj existingSettings [("mcpServers", JVal.objv (spreadObj existingMcp incoming))]

def writeGeneratedSkills (skillsDir : String) : WState → List NamedFile → WState
  | s, [] => s
  | s, skill :: rest =>
    writeGeneratedSkills skillsDir
      (doWriteText s (pJoin (pJoin skillsDir skill.name) "SKILL.md") (skill.content ++ "\n")) rest

def copySkillDirs (skillsDir : String) : WState → List NamedDir → WState
  | s, [] => s
  | s, d :: rest => copySkillDirs skillsDir (doCopyDir s d.sourceDir (pJoin skillsDir d.name)) rest

def writeGeminiCommands (commandsDir : String) : WState → List NamedFile → WState
  | s, [] => s
  | s, c :: rest =>
    writeGeminiCommands commandsDir
      (doWriteText s (pJoin commandsDir (c.name ++ ".toml")) (c.content ++ "\n")) rest

/-- The `settings.json` block of `writeGeminiBundle`: backup, read existing
settings (with a warning and `{}` fallback when the file does not parse as
JSON), merge `mcpServers`, write the merged object. -/
def geminiSettingsStep (env : WEnv) (geminiDir : String)
    (incoming : List (String × String)) (s : WState) : WOut :=
  let settingsPath := pJoin geminiDir "settings.json"
  match backupFile env s settingsPath with
  | .fail s' msg => ⟨s', some msg⟩
  | .ok s1 _bp =>
    let (existingSettings, s2) :=
      match s1.fs.files settingsPath with
      | some (FileContent.jsonF o) => (o, s1)
      | some (FileContent.raw _) =>
        ([], doWarn s1 "Warning: existing settings.json could not be parsed and will be replaced.")
      | none => ([], s1)
    ⟨doWriteJson s2 settingsPath (geminiMergeSettings existingSettings incoming), none⟩

def writeGeminiBundle (env : WEnv) (outputRoot : String) (bundle : GeminiBundle)
    (fs : FS) : WOut :=
  let paths := resolveGeminiPaths outputRoot
  let s0 := doMkdir ⟨fs, []⟩ paths.geminiDir
  let s1 := writeGeneratedSkills paths.skillsDir s0 bundle.generatedSkills
  let s2 := copySkillDirs paths.skillsDir s1 bundle.skillDirs
  let s3 := writeGeminiCommands paths.commandsDir s2 bundle.commands
  match bundle.mcpServers with
  | some servers =>
    if servers.isEmpty then ⟨s3, none⟩
    else geminiSettingsStep env paths.geminiDir servers s3
  | none => ⟨s3, none⟩

/-! ## OpenCode writer (`writeOpenCodeBundle`) -/

/-- The agent and plugin loops: plain `writeText` of `content + "\n"` to
`<dir>/<name><ext>`, no backup. -/
def writeOCNamed (dir ext : String) : WState → List NamedFile → WState
  | s, [] => s
  | s, f :: rest =>
    writeOCNamed dir ext (doWriteText s (pJoin dir (f.name ++ ext)) (f.content ++ "\n")) rest

/-- The command-file loop: backup the destination, then write `content + "\n"`
to `<commandDir>/<name>.md`; a failing backup aborts the writer. -/
def writeOCCommands (env : WEnv) (commandDir : String) : WState → List NamedFile → WOut
  | s, [] => ⟨s, none⟩
  | s, f :: rest =>
    let dest := pJoin commandDir (f.name ++ ".md")
    match backupFile env s dest with
    | .fail s' msg => ⟨s', some msg⟩
    | .ok s1 _bp => writeOCCommands env commandDir (doWriteText s1 dest (f.content ++ "\n")) rest

def writeOpenCodeBundle (env : WEnv) (outputRoot : String) (bundle : OpenCodeBundle)
    (fs : FS) : WOut :=
  let p := resolveOpenCodePaths outputRoot
  let s0 := doMkdir ⟨fs, []⟩ p.root
  match backupFile env s0 p.configPath with
  | .fail s' msg => ⟨s', some msg⟩
  | .ok s1 _bp =>
    let s2 := doWriteJson s1 p.configPath bundle.config
    let s3 := writeOCNamed p.agentsDir ".md" s2 bundle.agents
    let out := writeOCCommands env p.commandDir s3 bundle.commandFiles
    match out.err with
    | some _ => out
    | none =>
      let s5 := writeOCNamed p.pluginsDir "" out.s bundle.plugins
      let s6 := copySkillDirs p.skillsDir s5 bundle.skillDirs
      ⟨s6, none⟩

/-! ## Converter (`claude-to-gemini.ts`): names, namespacing, descriptions -/

def GEMINI_DESCRIPTION_MAX_LENGTH : Nat := 1024

/-- Model of the JavaScript `\s` character class, restricted to the ASCII
whitespace the repository's inputs contain. -/
def isWsChar (c : Char) : Bool := c == ' ' || c == '\t' || c == '\n' || c == '\r'

/-- `String.prototype.trim` on a character list. -/
def trimList (l : List Char) : List Char :=
  ((l.dropWhile isWsChar).reverse.dropWhile isWsChar).reverse

/-- `String.prototype.trimEnd` on a character list. -/
def trimEndList (l : List Char) : List Char :=
  (l.reverse.dropWhile isWsChar).reverse

/-- `value.replace(/X+/g, r)` for a character class `X`: every maximal run of
characters satisfying `p` becomes the single character `r`.  (A run emits its
replacement at its last character, which keeps the recursion structural.) -/
def replaceRuns (p : Char → Bool) (r : Char) : List Char → List Char
  | [] => []
  | c :: rest =>
    let tail := replaceRuns p r rest
    if p c then
      match rest.head? with
      | some d => if p d then tail else r :: tail
      | none => r :: tail
    else c :: tail

def isSafeChar (c : Char) : Bool :=
  ('a' ≤ c && c ≤ 'z') || ('0' ≤ c && c ≤ '9') || c == '_' || c == '-'

/-- `normalizeName` of `claude-to-gemini.ts`: trim, lowercase, turn runs of
slashes/backslashes, then of colons and whitespace, then of any remaining
unsafe character into `-`, collapse `-` runs, strip edge `-`, with `"item"`
as the fallback for an empty result. -/
def normalizeName (value : String) : String :=
  let trimmed := trimList value.data
  if trimmed.isEmpty then "item"
  else
    let s1 := trimmed.map Char.toLower
    let s2 := replaceRuns (fun c => c == '\\' || c == '/') '-' s1
    let s3 := replaceRuns (fun c => c == ':' || isWsChar c) '-' s2
    let s4 := replaceRuns (fun c => !isSafeChar c) '-' s3
    let s5 := replaceRuns (fun c => c == '-') '-' s4
    let s6 := ((s5.dropWhile (fun c => c == '-')).reverse.dropWhile (fun c => c == '-')).reverse
    if s6.isEmpty then "item" else String.mk s6

/-- The `while (used.has(base-index)) index += 1` search of `uniqueName`,
with enough fuel to exhaust the finite `used` set. -/
def findFree (base : String) (used : List String) : Nat → Nat → Nat
  | 0, idx => idx
  | fuel + 1, idx =>
    if used.contains (base ++ "-" ++ toString idx) then findFree base used fuel (idx + 1)
    else idx

/-- `uniqueName` of `claude-to-gemini.ts`: return `base` when unused, else
`base-N` for the first free `N ≥ 2`; the chosen name is added to `used`. -/
def uniqueName (base : String) (used : List String) : String × List String :=
  if used.contains base then
    let idx := findFree base used (used.length + 1) 2
    let name := base ++ "-" ++ toString idx
    (name, name :: used)
  else (base, base :: used)

/-- `resolveCommandPath`: split the command name on `:` and normalize each
segment, e.g. `workflows:plan ↦ ["workflows", "plan"]`. -/
def resolveCommandPath (name : String) : List String :=
  (splitSep ':' name.data).map (fun seg => normalizeName (String.mk seg))

/-- The slash-joined path key `convertCommand` gives a command:
`workflows:plan ↦ workflows/plan`. -/
def commandPathKey (name : String) : String :=
  String.intercalate "/" (resolveCommandPath name)

/-- The sequence of `name` fields `convertClaudeToGemini` gives the commands
of a plugin, in order.  `convertCommand` computes `uniqueName(pathKey, used)`
("Track for dedup") but discards its result and returns `name: pathKey`. -/
def geminiCommandNames : List String → List String → List String
  | _, [] => []
  | used, n :: rest =>
    let pathKey := commandPathKey n
    let used' := (uniqueName pathKey used).2
    pathKey :: geminiCommandNames used' rest

/-- `sanitizeDescription`: collapse whitespace runs to single spaces and trim;
when longer than the limit, slice to `limit - 3`, trim the end and append
`"..."`. -/
def sanitizeDescription (value : String) : String :=
  let normalized := trimList (replaceRuns isWsChar ' ' value.data)
  if normalized.length ≤ GEMINI_DESCRIPTION_MAX_LENGTH then String.mk normalized
  else
    String.mk (trimEndList (normalized.take (GEMINI_DESCRIPTION_MAX_LENGTH - 3))) ++ "..."

/-- The `value.replace(/\s+/g, " ").trim()` normal form on strings. -/
def normalizeWsStr (value : String) : String :=
  String.mk (trimList (replaceRuns isWsChar ' ' value.data))

/-- The description `convertAgentToSkill` puts in the generated skill's
frontmatter: the agent's description, or the default
`Use this skill for <name> tasks`, passed through `sanitizeDescription`. -/
def geminiSkillDescription (agentName : String) (description : Option String) : String :=
  sanitizeDescription (description.getD ("Use this skill for " ++ agentName ++ " tasks"))

/-! ## Target registry and command guards (`src/targets/index.ts`,
`src/commands/convert.ts`, the install command) -/

structure TargetHandler where
  name : String
  implemented : Bool
deriving DecidableEq, Repr

/-- The `targets` registry of `src/targets/index.ts`. -/
def targets : List (String × TargetHandler) :=
  [("opencode", ⟨"opencode", true⟩),
   ("codex", ⟨"codex", true⟩),
   ("droid", ⟨"droid", true⟩),
   ("cursor", ⟨"cursor", true⟩),
   ("pi", ⟨"pi", true⟩),
   ("gemini", ⟨"gemini", true⟩)]

def permissionModes : List String := ["none", "broad", "from-commands"]

/-- Effects of a command run, in order. -/
inductive CmdAction where
  | resolvePlugin (name : String)
  | loadPlugin (source : String)
  | convert (target : String)
  | writeBundle (target : String)
deriving DecidableEq, Repr

/-- Control-flow skeleton of the `run` handler of the convert command for its
primary target: the registry and `implemented` guards, then the permissions
guard, raise before any plugin load, conversion or write. -/
def runConvertPrimary (registry : List (String × TargetHandler))
    (tgt source permissions : String) : List CmdAction × Option String :=
  match registry.lookup tgt with
  | none => ([], some ("Unknown target: " ++ tgt))
  | some t =>
    if !t.implemented then
      ([], some ("Target " ++ tgt ++ " is registered but not implemented yet."))
    else if !(permissionModes.contains permissions) then
      ([], some ("Unknown permissions mode: " ++ permissions))
    else
      ([CmdAction.loadPlugin source, CmdAction.convert tgt, CmdAction.writeBundle tgt], none)

/-- Control-flow skeleton of the `run` handler of the install command for its
primary target: identical guards, then plugin resolution, load, conversion
and write. -/
def runInstallPrimary (registry : List (String × TargetHandler))
    (tgt pluginName permissions : String) : List CmdAction × Option String :=
  match registry.lookup tgt with
  | none => ([], some ("Unknown target: " ++ tgt))
  | some t =>
    if !t.implemented then
      ([], some ("Target " ++ tgt ++ " is registered but not implemented yet."))
    else if !(permissionModes.contains permissions) then
      ([], some ("Unknown permissions mode: " ++ permissions))
    else
      ([CmdAction.resolvePlugin pluginName, CmdAction.loadPlugin pluginName,
        CmdAction.convert tgt, CmdAction.writeBundle tgt], none)

/-! ## Helpers for stating writer properties -/

/-- The backup path `backupFile` produces for a destination. -/
def bakPath (env : WEnv) (dest : String) : String := dest ++ ".bak." ++ env.now

/-- Is this event a backup copy whose source is `dest`? -/
def isCopySrc (dest : String) : Ev → Bool
  | .copy src _ => src = dest
  | _ => false

/-- Is this event a write to `dest`? -/
def isWriteTo (dest : String) : Ev → Bool
  | .write p _ => p = dest
  | _ => false

/-- Is this event a warning? -/
def isWarnEv : Ev → Bool
  | .warn _ => true
  | _ => false

/-- Destination of a generated Gemini skill: `<skillsDir>/<name>/SKILL.md`. -/
def genSkillDest (skillsDir : String) (f : NamedFile) : String :=
  pJoin (pJoin skillsDir f.name) "SKILL.md"

/-- Destination of a Gemini command: `<commandsDir>/<name>.toml`. -/
def gemCmdDest (commandsDir : String) (f : NamedFile) : String :=
  pJoin commandsDir (f.name ++ ".toml")

/-- Destination of an OpenCode agent or plugin file: `<dir>/<name><ext>`. -/
def ocNamedDest (dir ext : String) (f : NamedFile) : String :=
  pJoin dir (f.name ++ ext)

/-- Destination of an OpenCode command file: `<commandDir>/<name>.md`. -/
def ocCmdDest (commandDir : String) (f : NamedFile) : String :=
  pJoin commandDir (f.name ++ ".md")

/-- Events appended by the OpenCode command loop when no backup fails and the
destinations are pairwise independent: per command, a copy when the
destination existed at loop entry, then the write. -/
def ocCmdEvents (env : WEnv) (commandDir : String) (fs0 : FS) : List NamedFile → List Ev
  | [] => []
  | f :: rest =>
    (match fs0.files (ocCmdDest commandDir f) with
     | some _ => [Ev.copy (ocCmdDest commandDir f) (bakPath env (ocCmdDest commandDir f))]
     | none => []) ++
    (Ev.write (ocCmdDest commandDir f) (FileContent.raw (f.content ++ "\n")) ::
      ocCmdEvents env commandDir fs0 rest)

/-! ## Whitespace-normal form predicates (for the sanitized description) -/

/-- No two adjacent whitespace characters. -/
def noDoubleWs : List Char → Bool
  | [] => true
  | [_] => true
  | a :: b :: rest => (!(isWsChar a && isWsChar b)) && noDoubleWs (b :: rest)

/-- Every whitespace character is a plain space. -/
def allWsSpace (l : List Char) : Bool := l.all (fun c => !isWsChar c || c == ' ')

/-- Neither end is whitespace. -/
def noEdgeWs (l : List Char) : Bool :=
  (l.head?.all fun c => !isWsChar c) && (l.getLast?.all fun c => !isWsChar c)

/-- Whitespace-normalized: whitespace only as single interior spaces. -/
def wsNormalizedB (l : List Char) : Bool := allWsSpace l && noDoubleWs l && noEdgeWs l

/-! ## Generic helper lemmas -/

theorem sdata_append (a b : String) : (a ++ b).data = a.data ++ b.data := rfl

theorem isPrefixOf_append_same (a b c : List Char) :
    (a ++ b).isPrefixOf (a ++ c) = b.isPrefixOf c := by
  induction a with
  | nil => rfl
  | cons x xs ih => simp [List.isPrefixOf, ih]

theorem isPrefixOf_self_append (a b : List Char) : a.isPrefixOf (a ++ b) = true := by
  induction a with
  | nil => cases b <;> rfl
  | cons x xs ih => simp [List.isPrefixOf, ih]

theorem strStartsWith_cancel (r x y : String) :
    strStartsWith (r ++ x) (r ++ y) = x.data.isPrefixOf y.data := by
  show ((r ++ x).data).isPrefixOf ((r ++ y).data) = _
  rw [sdata_append, sdata_append, isPrefixOf_append_same]

theorem strStartsWith_of_eq_append (pre rest a : String) (h : a = pre ++ rest) :
    strStartsWith pre a = true := by
  subst h
  exact isPrefixOf_self_append pre.data rest.data

/-- Claim C1 (code_bug evaluation): on the spec's own example, the Gemini
merge lets the incoming value win for a field present on both sides
(`{"x": 1}` merged with `{"x": 2, "y": 3}` yields `{"x": 2, "y": 3}`, not
`{"x": 1, "y": 3}`), and the OpenCode writer performs no merge at all: it
overwrites an existing `opencode.json` with the incoming config verbatim,
dropping the user's `custom` key and `mcp.x` value. -/
theorem claim_C1_code_eval :
    geminiMergeSettings [("mcpServers", JVal.objv [("x", "1")])] [("x", "2"), ("y", "3")]
      = [("mcpServers", JVal.objv [("x", "2"), ("y", "3")])] ∧
    (writeOpenCodeBundle ⟨fun _ => false, "T"⟩ "/x/.opencode"
        ⟨[("mcp", JVal.objv [("x", "2"), ("y", "3")])], [], [], [], []⟩
        ⟨fun p => if p = "/x/.opencode/opencode.json"
          then some (FileContent.jsonF [("mcp", JVal.objv [("x", "1")]), ("custom", JVal.atom "v")])
          else none⟩).s.fs.files "/x/.opencode/opencode.json"
      = some (FileContent.jsonF [("mcp", JVal.objv [("x", "2"), ("y", "3")])]) := by
  exact ⟨by decide, by decide⟩

/-- Claim C2 (counterexample): for the output root `/proj`, whose basename is
not OpenCode's canonical directory name, the resolver still places the config
file at the top level `/proj/opencode.json`, not under `/proj/.opencode/`,
and the writer writes it there. -/
theorem claim_C2_counterexample :
    (resolveOpenCodePaths "/proj").configPath = "/proj/opencode.json" ∧
    strStartsWith "/proj/.opencode/" (resolveOpenCodePaths "/proj").configPath = false ∧
    (writeOpenCodeBundle ⟨fun _ => false, "T"⟩ "/proj" ⟨[], [], [], [], []⟩
        ⟨fun _ => none⟩).s.fs.files "/proj/opencode.json" = some (FileContent.jsonF []) := by
  exact ⟨by decide, by decide, by decide⟩

/-- Claim C2 (amended): for every output root whose basename is not the
target's canonical directory name, the Gemini resolver nests every produced
file — generated skills, commands and `settings.json` — under
`<root>/.gemini/`; the OpenCode resolver nests the artifact directories
(agents, commands, plugins, skills) under `<root>/.opencode/`, but the config
file `opencode.json` is written directly at the top level of the root. -/
theorem claim_C2_amended (root : String) (f : NamedFile)
    (hg : basename root ≠ ".gemini")
    (ho : ¬ (basename root = "opencode" ∨ basename root = ".opencode")) :
    strStartsWith (root ++ "/.gemini/")
      (genSkillDest (resolveGeminiPaths root).skillsDir f) = true ∧
    strStartsWith (root ++ "/.gemini/")
      (gemCmdDest (resolveGeminiPaths root).commandsDir f) = true ∧
    strStartsWith (root ++ "/.gemini/")
      (pJoin (resolveGeminiPaths root).geminiDir "settings.json") = true ∧
    strStartsWith (root ++ "/.opencode/")
      (ocNamedDest (resolveOpenCodePaths root).agentsDir ".md" f) = true ∧
    strStartsWith (root ++ "/.opencode/")
      (ocCmdDest (resolveOpenCodePaths root).commandDir f) = true ∧
    strStartsWith (root ++ "/.opencode/")
      (ocNamedDest (resolveOpenCodePaths root).pluginsDir "" f) = true ∧
    strStartsWith (root ++ "/.opencode/")
      (pJoin (resolveOpenCodePaths root).skillsDir f.name) = true ∧
    (resolveOpenCodePaths root).configPath = pJoin root "opencode.json" ∧
    strStartsWith (root ++ "/.opencode/") (resolveOpenCodePaths root).configPath = false := by
  rw [resolveGeminiPaths, resolveOpenCodePaths, if_neg hg, if_neg ho]
  refine ⟨?_, ?_, ?_, ?_, ?_, ?_, ?_, rfl, ?_⟩
  · exact strStartsWith_of_eq_append _ ("skills/" ++ f.name ++ "/SKILL.md") _ (by
      simp only [genSkillDest, pJoin, String.append_assoc]
      rfl)
  · exact strStartsWith_of_eq_append _ ("commands/" ++ f.name ++ ".toml") _ (by
      simp only [gemCmdDest, pJoin, String.append_assoc]
      rfl)
  · exact strStartsWith_of_eq_append _ "settings.json" _ (by
      simp only [pJoin, String.append_assoc]
      rfl)
  · exact strStartsWith_of_eq_append _ ("agents/" ++ f.name ++ ".md") _ (by
      simp only [ocNamedDest, pJoin, String.append_assoc]
      rfl)
  · exact strStartsWith_of_eq_append _ ("commands/" ++ f.name ++ ".md") _ (by
      simp only [ocCmdDest, pJoin, String.append_assoc]
      rfl)
  · exact strStartsWith_of_eq_append _ ("plugins/" ++ f.name) _ (by
      simp only [ocNamedDest, pJoin, String.append_assoc, String.append_empty]
      rfl)
  · exact strStartsWith_of_eq_append _ ("skills/" ++ f.name) _ (by
      simp only [pJoin, String.append_assoc]
      rfl)
  · show strStartsWith (root ++ "/.opencode/") (pJoin root "opencode.json") = false
    have : pJoin root "opencode.json" = root ++ "/opencode.json" := by
      simp only [pJoin, String.append_assoc]
      rfl
    rw [this, strStartsWith_cancel]
    rfl

/-- Witness for `claim_C2_amended` at the concrete root `/proj`. -/
theorem claim_C2_amended_witness :
    strStartsWith ("/proj" ++ "/.gemini/")
      (genSkillDest (resolveGeminiPaths "/proj").skillsDir ⟨"rev", "c"⟩) = true ∧
    (resolveOpenCodePaths "/proj").configPath = pJoin "/proj" "opencode.json" := by
  have h := claim_C2_amended "/proj" ⟨"rev", "c"⟩ (by decide) (by decide)
  exact ⟨h.1, h.2.2.2.2.2.2.2.1⟩

/-- Claim C6: when the output root's basename is already the target's
canonical directory name (`opencode` or `.opencode` for OpenCode, `.gemini`
for Gemini), the resolver treats the root itself as the target home: the
artifact subdirectories are direct children of the root, the config file sits
directly at `<root>/<config-filename>`, and neither the config path nor any
artifact destination lies under a nested `<root>/.<target>/` directory. -/
theorem claim_C6_direct_layout (root : String) (f : NamedFile) :
    (basename root = "opencode" ∨ basename root = ".opencode" →
      resolveOpenCodePaths root =
        ⟨root, pJoin root "opencode.json", pJoin root "agents", pJoin root "plugins",
         pJoin root "skills", pJoin root "commands"⟩ ∧
      strStartsWith (root ++ "/.opencode/") (resolveOpenCodePaths root).configPath = false ∧
      strStartsWith (root ++ "/.opencode/")
        (ocNamedDest (resolveOpenCodePaths root).agentsDir ".md" f) = false ∧
      strStartsWith (root ++ "/.opencode/")
        (ocCmdDest (resolveOpenCodePaths root).commandDir f) = false) ∧
    (basename root = ".gemini" →
      resolveGeminiPaths root = ⟨root, pJoin root "skills", pJoin root "commands"⟩ ∧
      strStartsWith (root ++ "/.gemini/")
        (genSkillDest (resolveGeminiPaths root).skillsDir f) = false ∧
      strStartsWith (root ++ "/.gemini/")
        (gemCmdDest (resolveGeminiPaths root).commandsDir f) = false ∧
      strStartsWith (root ++ "/.gemini/")
        (pJoin (resolveGeminiPaths root).geminiDir "settings.json") = false) := by
  constructor
  · intro h
    rw [resolveOpenCodePaths, if_pos h]
    refine ⟨rfl, ?_, ?_, ?_⟩
    · have h1 : pJoin root "opencode.json" = root ++ "/opencode.json" := by
        simp only [pJoin, String.append_assoc]
        rfl
      rw [h1, strStartsWith_cancel]
      rfl
    · have h1 : ocNamedDest (pJoin root "agents") ".md" f
          = root ++ ("/agents/" ++ (f.name ++ ".md")) := by
        simp only [ocNamedDest, pJoin, String.append_assoc]
        rfl
      rw [h1, strStartsWith_cancel]
      rfl
    · have h1 : ocCmdDest (pJoin root "commands") f
          = root ++ ("/commands/" ++ (f.name ++ ".md")) := by
        simp only [ocCmdDest, pJoin, String.append_assoc]
        rfl
      rw [h1, strStartsWith_cancel]
      rfl
  · intro h
    rw [resolveGeminiPaths, if_pos h]
    refine ⟨rfl, ?_, ?_, ?_⟩
    · have h1 : genSkillDest (pJoin root "skills") f
          = root ++ ("/skills/" ++ (f.name ++ "/SKILL.md")) := by
        simp only [genSkillDest, pJoin, String.append_assoc]
        rfl
      rw [h1, strStartsWith_cancel]
      rfl
    · have h1 : gemCmdDest (pJoin root "commands") f
          = root ++ ("/commands/" ++ (f.name ++ ".toml")) := by
        simp only [gemCmdDest, pJoin, String.append_assoc]
        rfl
      rw [h1, strStartsWith_cancel]
      rfl
    · have h2 : pJoin root "settings.json" = root ++ "/settings.json" := by
        simp only [pJoin, String.append_assoc]
        rfl
      rw [h2, strStartsWith_cancel]
      rfl

/-- Witness for `claim_C6_direct_layout` at `/home/u/.opencode` and
`/home/u/.gemini`. -/
theorem claim_C6_direct_layout_witness :
    (resolveOpenCodePaths "/home/u/.opencode").configPath
      = pJoin "/home/u/.opencode" "opencode.json" ∧
    (resolveGeminiPaths "/home/u/.gemini").skillsDir = pJoin "/home/u/.gemini" "skills" := by
  have h1 := (claim_C6_direct_layout "/home/u/.opencode" ⟨"a", "c"⟩).1 (by decide)
  have h2 := (claim_C6_direct_layout "/home/u/.gemini" ⟨"a", "c"⟩).2 (by decide)
  exact ⟨by rw [h1.1], by rw [h2.1]⟩

/-- Claim C7: a convert or install invocation whose target name is missing
from the registry, or registered with `implemented = false`, fails in the
guard phase: the returned error is set and no action — in particular no
converter call and no writer call, hence no file-system write — is taken for
the primary target. -/
theorem claim_C7_guard (registry : List (String × TargetHandler)) (tgt src perm plg : String)
    (h : registry.lookup tgt = none ∨
      ∃ t, registry.lookup tgt = some t ∧ t.implemented = false) :
    (runConvertPrimary registry tgt src perm).2.isSome = true ∧
    (runConvertPrimary registry tgt src perm).1 = [] ∧
    (runInstallPrimary registry tgt plg perm).2.isSome = true ∧
    (runInstallPrimary registry tgt plg perm).1 = [] := by
  rcases h with h | ⟨t, ht, himp⟩
  · simp [runConvertPrimary, runInstallPrimary, h]
  · simp [runConvertPrimary, runInstallPrimary, ht, himp]

/-- Witness for `claim_C7_guard`: the name `zed` is not in the registry of
`src/targets/index.ts`. -/
theorem claim_C7_guard_witness :
    (runConvertPrimary targets "zed" "./plug" "broad").1 = [] ∧
    (runInstallPrimary targets "zed" "plug" "broad").1 = [] := by
  have h := claim_C7_guard targets "zed" "./plug" "broad" "plug" (Or.inl (by decide))
  exact ⟨h.2.1, h.2.2.2⟩

/-- Claim C9 (code_bug evaluation): `convertCommand` computes
`uniqueName(pathKey, usedCommandNames)` but discards the result and returns
`name: pathKey`, so two commands whose names normalize to the same path key
(`plan` and `Plan`) both receive the key `plan`: command path keys are not
pairwise distinct. -/
theorem claim_C9_duplicate_command_keys :
    geminiCommandNames [] ["plan", "Plan"] = ["plan", "plan"] ∧
    ¬ (geminiCommandNames [] ["plan", "Plan"]).Nodup := by
  exact ⟨by decide, by decide⟩

/-! ## Loop lemmas for the writers -/

theorem setFile_eq (fs : FS) (p : String) (c : FileContent) :
    (setFile fs p c).files p = some c := by
  simp [setFile]

theorem setFile_ne (fs : FS) (p : String) (c : FileContent) (q : String) (h : q ≠ p) :
    (setFile fs p c).files q = fs.files q := by
  simp [setFile, h]

theorem writeGeneratedSkills_run (skillsDir : String) (l : List NamedFile) (s : WState) :
    (writeGeneratedSkills skillsDir s l).tr
      = s.tr ++ l.map (fun f =>
          Ev.write (genSkillDest skillsDir f) (FileContent.raw (f.content ++ "\n"))) ∧
    ∀ p, (∀ f ∈ l, genSkillDest skillsDir f ≠ p) →
      (writeGeneratedSkills skillsDir s l).fs.files p = s.fs.files p := by
  induction l generalizing s with
  | nil => simp [writeGeneratedSkills]
  | cons f rest ih =>
    have step : writeGeneratedSkills skillsDir s (f :: rest)
        = writeGeneratedSkills skillsDir
            (doWriteText s (genSkillDest skillsDir f) (f.content ++ "\n")) rest := rfl
    rw [step]
    obtain ⟨ihtr, ihf⟩ := ih (doWriteText s (genSkillDest skillsDir f) (f.content ++ "\n"))
    constructor
    · rw [ihtr]
      simp [doWriteText]
    · intro p hp
      rw [ihf p (fun g hg => hp g (List.mem_cons_of_mem f hg))]
      exact setFile_ne _ _ _ _ fun h => (hp f (List.mem_cons_self f rest)) h.symm

theorem writeGeminiCommands_run (commandsDir : String) (l : List NamedFile) (s : WState) :
    (writeGeminiCommands commandsDir s l).tr
      = s.tr ++ l.map (fun f =>
          Ev.write (gemCmdDest commandsDir f) (FileContent.raw (f.content ++ "\n"))) ∧
    (∀ p, (∀ f ∈ l, gemCmdDest commandsDir f ≠ p) →
      (writeGeminiCommands commandsDir s l).fs.files p = s.fs.files p) ∧
    (∀ f ∈ l, (∀ g ∈ l, gemCmdDest commandsDir g = gemCmdDest commandsDir f → g = f) →
      (writeGeminiCommands commandsDir s l).fs.files (gemCmdDest commandsDir f)
        = some (FileContent.raw (f.content ++ "\n"))) := by
  induction l generalizing s with
  | nil => simp [writeGeminiCommands]
  | cons f rest ih =>
    have step : writeGeminiCommands commandsDir s (f :: rest)
        = writeGeminiCommands commandsDir
            (doWriteText s (gemCmdDest commandsDir f) (f.content ++ "\n")) rest := rfl
    rw [step]
    obtain ⟨ihtr, ihp, ihw⟩ := ih (doWriteText s (gemCmdDest commandsDir f) (f.content ++ "\n"))
    refine ⟨?_, ?_, ?_⟩
    · rw [ihtr]
      simp [doWriteText]
    · intro p hp
      rw [ihp p (fun g hg => hp g (List.mem_cons_of_mem f hg))]
      exact setFile_ne _ _ _ _ fun h => (hp f (List.mem_cons_self f rest)) h.symm
    · intro g hg huniq
      rcases List.mem_cons.mp hg with hgf | hgrest
      · subst hgf
        by_cases hmem : ∃ r ∈ rest, gemCmdDest commandsDir r = gemCmdDest commandsDir g
        · obtain ⟨r, hr, hre⟩ := hmem
          have : r = g := huniq r (List.mem_cons_of_mem g hr) hre
          subst this
          exact ihw r hr (fun x hx hxe => by
            have := huniq x (List.mem_cons_of_mem r hx) hxe
            exact this)
        · push_neg at hmem
          rw [ihp _ (fun x hx => hmem x hx)]
          exact setFile_eq _ _ _
      · exact ihw g hgrest (fun x hx hxe =>
          huniq x (List.mem_cons_of_mem f hx) hxe)

theorem writeOCNamed_run (dir ext : String) (l : List NamedFile) (s : WState) :
    (writeOCNamed dir ext s l).tr
      = s.tr ++ l.map (fun f =>
          Ev.write (ocNamedDest dir ext f) (FileContent.raw (f.content ++ "\n"))) ∧
    ∀ p, (∀ f ∈ l, ocNamedDest dir ext f ≠ p) →
      (writeOCNamed dir ext s l).fs.files p = s.fs.files p := by
  induction l generalizing s with
  | nil => simp [writeOCNamed]
  | cons f rest ih =>
    have step : writeOCNamed dir ext s (f :: rest)
        = writeOCNamed dir ext (doWriteText s (ocNamedDest dir ext f) (f.content ++ "\n")) rest :=
      rfl
    rw [step]
    obtain ⟨ihtr, ihf⟩ := ih (doWriteText s (ocNamedDest dir ext f) (f.content ++ "\n"))
    constructor
    · rw [ihtr]
      simp [doWriteText]
    · intro p hp
      rw [ihf p (fun g hg => hp g (List.mem_cons_of_mem f hg))]
      exact setFile_ne _ _ _ _ fun h => (hp f (List.mem_cons_self f rest)) h.symm

theorem copySkillDirs_run (skillsDir : String) (l : List NamedDir) (s : WState) :
    (copySkillDirs skillsDir s l).tr
      = s.tr ++ l.map (fun d => Ev.copyDir d.sourceDir (pJoin skillsDir d.name)) ∧
    (copySkillDirs skillsDir s l).fs = s.fs := by
  induction l generalizing s with
  | nil => simp [copySkillDirs]
  | cons d rest ih =>
    have step : copySkillDirs skillsDir s (d :: rest)
        = copySkillDirs skillsDir (doCopyDir s d.sourceDir (pJoin skillsDir d.name)) rest := rfl
    rw [step]
    obtain ⟨ihtr, ihf⟩ := ih (doCopyDir s d.sourceDir (pJoin skillsDir d.name))
    constructor
    · rw [ihtr]
      simp [doCopyDir]
    · rw [ihf]
      rfl

theorem bakPath_ne_self (env : WEnv) (d : String) : bakPath env d ≠ d := by
  intro h
  have hl := congrArg String.length h
  rw [bakPath, String.append_assoc, String.length_append, String.length_append] at hl
  have h5 : (".bak." : String).length = 5 := rfl
  omega

theorem bakPath_inj (env : WEnv) (d1 d2 : String) (h : bakPath env d1 = bakPath env d2) :
    d1 = d2 := by
  have hd := congrArg String.data h
  rw [bakPath, bakPath, String.append_assoc, String.append_assoc] at hd
  rw [sdata_append, sdata_append] at hd
  exact String.ext (List.append_cancel_right hd)

theorem ocCmdEvents_congr (env : WEnv) (commandDir : String) (fs0 fs1 : FS)
    (l : List NamedFile)
    (h : ∀ f ∈ l, fs0.files (ocCmdDest commandDir f) = fs1.files (ocCmdDest commandDir f)) :
    ocCmdEvents env commandDir fs0 l = ocCmdEvents env commandDir fs1 l := by
  induction l with
  | nil => rfl
  | cons f rest ih =>
    have hf := h f (List.mem_cons_self f rest)
    have hrest := ih fun g hg => h g (List.mem_cons_of_mem f hg)
    simp only [ocCmdEvents, hf, hrest]

/-- Full characterization of the OpenCode command loop in the success case:
no backup fails, the destinations are pairwise distinct, and no computed
backup path collides with a destination. -/
theorem writeOCCommands_run (env : WEnv) (commandDir : String) (l : List NamedFile)
    (s : WState)
    (hfail : ∀ f ∈ l, env.copyFails (ocCmdDest commandDir f) = false)
    (hdd : List.Pairwise (fun f g => ocCmdDest commandDir f ≠ ocCmdDest commandDir g) l)
    (hbd : ∀ f ∈ l, ∀ g ∈ l,
      bakPath env (ocCmdDest commandDir f) ≠ ocCmdDest commandDir g) :
    (writeOCCommands env commandDir s l).err = none ∧
    (writeOCCommands env commandDir s l).s.tr = s.tr ++ ocCmdEvents env commandDir s.fs l ∧
    (∀ p, (∀ f ∈ l, ocCmdDest commandDir f ≠ p ∧ bakPath env (ocCmdDest commandDir f) ≠ p) →
      (writeOCCommands env commandDir s l).s.fs.files p = s.fs.files p) ∧
    (∀ f ∈ l, (writeOCCommands env commandDir s l).s.fs.files (ocCmdDest commandDir f)
      = some (FileContent.raw (f.content ++ "\n"))) ∧
    (∀ f ∈ l, ∀ A, s.fs.files (ocCmdDest commandDir f) = some A →
      (writeOCCommands env commandDir s l).s.fs.files (bakPath env (ocCmdDest commandDir f))
        = some A) := by
  induction l generalizing s with
  | nil => simp [writeOCCommands, ocCmdEvents]
  | cons f rest ih =>
    have hfailf := hfail f (List.mem_cons_self f rest)
    have hfailr : ∀ g ∈ rest, env.copyFails (ocCmdDest commandDir g) = false :=
      fun g hg => hfail g (List.mem_cons_of_mem f hg)
    have hddf : ∀ g ∈ rest, ocCmdDest commandDir f ≠ ocCmdDest commandDir g :=
      (List.pairwise_cons.mp hdd).1
    have hddr := (List.pairwise_cons.mp hdd).2
    have hbdr : ∀ a ∈ rest, ∀ b ∈ rest,
        bakPath env (ocCmdDest commandDir a) ≠ ocCmdDest commandDir b :=
      fun a ha b hb => hbd a (List.mem_cons_of_mem f ha) b (List.mem_cons_of_mem f hb)
    -- the state after processing `f`, by cases on whether its destination exists
    cases hex : s.fs.files (ocCmdDest commandDir f) with
    | none =>
      have step : writeOCCommands env commandDir s (f :: rest)
          = writeOCCommands env commandDir
              (doWriteText s (ocCmdDest commandDir f) (f.content ++ "\n")) rest := by
        show (match backupFile env s (ocCmdDest commandDir f) with
          | .fail s' msg => (⟨s', some msg⟩ : WOut)
          | .ok s1 _bp =>
            writeOCCommands env commandDir
              (doWriteText s1 (ocCmdDest commandDir f) (f.content ++ "\n")) rest) = _
        rw [backupFile, hex]
      rw [step]
      set s1 := doWriteText s (ocCmdDest commandDir f) (f.content ++ "\n") with hs1
      obtain ⟨ih1, ih2, ih3, ih4, ih5⟩ := ih s1 hfailr hddr hbdr
      have hsame : ∀ g ∈ rest,
          s1.fs.files (ocCmdDest commandDir g) = s.fs.files (ocCmdDest commandDir g) := by
        intro g hg
        exact setFile_ne _ _ _ _ fun h => (hddf g hg) h.symm
      refine ⟨ih1, ?_, ?_, ?_, ?_⟩
      · rw [ih2, ocCmdEvents_congr env commandDir s1.fs s.fs rest hsame]
        simp only [ocCmdEvents, hex, List.nil_append, hs1, doWriteText, List.append_assoc,
          List.cons_append, List.nil_append]
      · intro p hp
        rw [ih3 p (fun g hg => hp g (List.mem_cons_of_mem f hg))]
        exact setFile_ne _ _ _ _ fun h => (hp f (List.mem_cons_self f rest)).1 h.symm
      · intro g hg
        rcases List.mem_cons.mp hg with hgf | hgrest
        · subst hgf
          rw [ih3 _ (fun x hx => ⟨fun h => hddf x hx h.symm,
            fun h => hbd x (List.mem_cons_of_mem g hx) g (List.mem_cons_self g rest) h⟩)]
          exact setFile_eq _ _ _
        · exact ih4 g hgrest
      · intro g hg A hA
        rcases List.mem_cons.mp hg with hgf | hgrest
        · subst hgf
          rw [hex] at hA
          exact absurd hA (by simp)
        · refine ih5 g hgrest A ?_
          rw [hsame g hgrest]
          exact hA
    | some A0 =>
      have step : writeOCCommands env commandDir s (f :: rest)
          = writeOCCommands env commandDir
              (doWriteText
                ⟨setFile s.fs (bakPath env (ocCmdDest commandDir f)) A0,
                 s.tr ++ [Ev.copy (ocCmdDest commandDir f)
                   (bakPath env (ocCmdDest commandDir f))]⟩
                (ocCmdDest commandDir f) (f.content ++ "\n")) rest := by
        show (match backupFile env s (ocCmdDest commandDir f) with
          | .fail s' msg => (⟨s', some msg⟩ : WOut)
          | .ok s1 _bp =>
            writeOCCommands env commandDir
              (doWriteText s1 (ocCmdDest commandDir f) (f.content ++ "\n")) rest) = _
        rw [backupFile, hex]
        simp only [hfailf, Bool.false_eq_true, if_false, bakPath]
      rw [step]
      set sb : WState :=
        ⟨setFile s.fs (bakPath env (ocCmdDest commandDir f)) A0,
         s.tr ++ [Ev.copy (ocCmdDest commandDir f) (bakPath env (ocCmdDest commandDir f))]⟩
        with hsb
      set s1 := doWriteText sb (ocCmdDest commandDir f) (f.content ++ "\n") with hs1
      obtain ⟨ih1, ih2, ih3, ih4, ih5⟩ := ih s1 hfailr hddr hbdr
      have hsame : ∀ g ∈ rest,
          s1.fs.files (ocCmdDest commandDir g) = s.fs.files (ocCmdDest commandDir g) := by
        intro g hg
        rw [hs1, doWriteText]
        show (setFile sb.fs (ocCmdDest commandDir f) _).files (ocCmdDest commandDir g)
          = s.fs.files (ocCmdDest commandDir g)
        rw [setFile_ne _ _ _ _ fun h => (hddf g hg) h.symm, hsb]
        exact setFile_ne _ _ _ _ fun h =>
          hbd f (List.mem_cons_self f rest) g (List.mem_cons_of_mem f hg) h.symm
      refine ⟨ih1, ?_, ?_, ?_, ?_⟩
      · rw [ih2, ocCmdEvents_congr env commandDir s1.fs s.fs rest hsame]
        simp only [ocCmdEvents, hex, hs1, doWriteText, hsb, List.append_assoc,
          List.cons_append, List.nil_append]
      · intro p hp
        rw [ih3 p (fun g hg => hp g (List.mem_cons_of_mem f hg)), hs1, doWriteText]
        show (setFile sb.fs (ocCmdDest commandDir f) _).files p = s.fs.files p
        rw [setFile_ne _ _ _ _ fun h => (hp f (List.mem_cons_self f rest)).1 h.symm, hsb]
        exact setFile_ne _ _ _ _ fun h => (hp f (List.mem_cons_self f rest)).2 h.symm
      · intro g hg
        rcases List.mem_cons.mp hg with hgf | hgrest
        · subst hgf
          rw [ih3 _ (fun x hx => ⟨fun h => hddf x hx h.symm,
            fun h => hbd x (List.mem_cons_of_mem g hx) g (List.mem_cons_self g rest) h⟩),
            hs1, doWriteText]
          exact setFile_eq _ _ _
        · exact ih4 g hgrest
      · intro g hg A hA
        rcases List.mem_cons.mp hg with hgf | hgrest
        · subst hgf
          rw [hex] at hA
          injection hA with hAA
          rw [← hAA]
          rw [ih3 _ (fun x hx => ⟨fun h =>
              hbd g (List.mem_cons_self g rest) x (List.mem_cons_of_mem g hx) h.symm,
            fun h => hddf x hx (bakPath_inj env _ _ h).symm⟩),
            hs1, doWriteText]
          show (setFile sb.fs (ocCmdDest commandDir g) _).files
            (bakPath env (ocCmdDest commandDir g)) = some A0
          rw [setFile_ne _ _ _ _ (bakPath_ne_self env _), hsb]
          exact setFile_eq _ _ _
        · refine ih5 g hgrest A ?_
          rw [hsame g hgrest]
          exact hA

/-- Full characterization of a successful `writeOpenCodeBundle` run: no
backup fails, and the involved destination and backup paths are pairwise
independent. -/
theorem writeOpenCodeBundle_run (env : WEnv) (root : String) (bundle : OpenCodeBundle)
    (fs : FS)
    (hcf : env.copyFails (resolveOpenCodePaths root).configPath = false)
    (hcmdf : ∀ f ∈ bundle.commandFiles,
      env.copyFails (ocCmdDest (resolveOpenCodePaths root).commandDir f) = false)
    (hdd : List.Pairwise (fun f g =>
      ocCmdDest (resolveOpenCodePaths root).commandDir f
        ≠ ocCmdDest (resolveOpenCodePaths root).commandDir g) bundle.commandFiles)
    (hbd : ∀ f ∈ bundle.commandFiles, ∀ g ∈ bundle.commandFiles,
      bakPath env (ocCmdDest (resolveOpenCodePaths root).commandDir f)
        ≠ ocCmdDest (resolveOpenCodePaths root).commandDir g)
    (hag : ∀ a ∈ bundle.agents, ∀ f ∈ bundle.commandFiles,
      ocNamedDest (resolveOpenCodePaths root).agentsDir ".md" a
        ≠ ocCmdDest (resolveOpenCodePaths root).commandDir f)
    (hagc : ∀ a ∈ bundle.agents,
      ocNamedDest (resolveOpenCodePaths root).agentsDir ".md" a
          ≠ (resolveOpenCodePaths root).configPath ∧
      ocNamedDest (resolveOpenCodePaths root).agentsDir ".md" a
          ≠ bakPath env (resolveOpenCodePaths root).configPath)
    (hcc : ∀ f ∈ bundle.commandFiles,
      ocCmdDest (resolveOpenCodePaths root).commandDir f
          ≠ (resolveOpenCodePaths root).configPath ∧
      ocCmdDest (resolveOpenCodePaths root).commandDir f
          ≠ bakPath env (resolveOpenCodePaths root).configPath ∧
      bakPath env (ocCmdDest (resolveOpenCodePaths root).commandDir f)
          ≠ (resolveOpenCodePaths root).configPath ∧
      bakPath env (ocCmdDest (resolveOpenCodePaths root).commandDir f)
          ≠ bakPath env (resolveOpenCodePaths root).configPath)
    (hpl : ∀ a ∈ bundle.plugins,
      ocNamedDest (resolveOpenCodePaths root).pluginsDir "" a
          ≠ (resolveOpenCodePaths root).configPath ∧
      ocNamedDest (resolveOpenCodePaths root).pluginsDir "" a
          ≠ bakPath env (resolveOpenCodePaths root).configPath ∧
      ∀ f ∈ bundle.commandFiles,
        ocNamedDest (resolveOpenCodePaths root).pluginsDir "" a
            ≠ ocCmdDest (resolveOpenCodePaths root).commandDir f ∧
        ocNamedDest (resolveOpenCodePaths root).pluginsDir "" a
            ≠ bakPath env (ocCmdDest (resolveOpenCodePaths root).commandDir f)) :
    (writeOpenCodeBundle env root bundle fs).err = none ∧
    (writeOpenCodeBundle env root bundle fs).s.tr =
      [Ev.mkdir (resolveOpenCodePaths root).root]
      ++ (match fs.files (resolveOpenCodePaths root).configPath with
          | some _ => [Ev.copy (resolveOpenCodePaths root).configPath
              (bakPath env (resolveOpenCodePaths root).configPath)]
          | none => [])
      ++ [Ev.write (resolveOpenCodePaths root).configPath (FileContent.jsonF bundle.config)]
      ++ bundle.agents.map (fun a =>
          Ev.write (ocNamedDest (resolveOpenCodePaths root).agentsDir ".md" a)
            (FileContent.raw (a.content ++ "\n")))
      ++ ocCmdEvents env (resolveOpenCodePaths root).commandDir fs bundle.commandFiles
      ++ bundle.plugins.map (fun a =>
          Ev.write (ocNamedDest (resolveOpenCodePaths root).pluginsDir "" a)
            (FileContent.raw (a.content ++ "\n")))
      ++ bundle.skillDirs.map (fun d =>
          Ev.copyDir d.sourceDir (pJoin (resolveOpenCodePaths root).skillsDir d.name)) ∧
    (writeOpenCodeBundle env root bundle fs).s.fs.files (resolveOpenCodePaths root).configPath
      = some (FileContent.jsonF bundle.config) ∧
    (∀ A, fs.files (resolveOpenCodePaths root).configPath = some A →
      (writeOpenCodeBundle env root bundle fs).s.fs.files
        (bakPath env (resolveOpenCodePaths root).configPath) = some A) ∧
    (∀ f ∈ bundle.commandFiles,
      (writeOpenCodeBundle env root bundle fs).s.fs.files
          (ocCmdDest (resolveOpenCodePaths root).commandDir f)
        = some (FileContent.raw (f.content ++ "\n"))) ∧
    (∀ f ∈ bundle.commandFiles, ∀ A,
      fs.files (ocCmdDest (resolveOpenCodePaths root).commandDir f) = some A →
      (writeOpenCodeBundle env root bundle fs).s.fs.files
          (bakPath env (ocCmdDest (resolveOpenCodePaths root).commandDir f)) = some A) := by
  set P := resolveOpenCodePaths root with hP
  set cfg := P.configPath with hcfgdef
  -- reduce the writer to its continuation from the post-backup state s1
  have key : ∃ s1 : WState,
      writeOpenCodeBundle env root bundle fs
        = (match (writeOCCommands env P.commandDir
              (writeOCNamed P.agentsDir ".md" (doWriteJson s1 cfg bundle.config) bundle.agents)
              bundle.commandFiles).err with
           | some _ => writeOCCommands env P.commandDir
              (writeOCNamed P.agentsDir ".md" (doWriteJson s1 cfg bundle.config) bundle.agents)
              bundle.commandFiles
           | none =>
             ⟨copySkillDirs P.skillsDir
               (writeOCNamed P.pluginsDir ""
                 (writeOCCommands env P.commandDir
                   (writeOCNamed P.agentsDir ".md" (doWriteJson s1 cfg bundle.config)
                     bundle.agents) bundle.commandFiles).s
                 bundle.plugins)
               bundle.skillDirs, none⟩) ∧
      s1.tr = [Ev.mkdir P.root] ++ (match fs.files cfg with
        | some _ => [Ev.copy cfg (bakPath env cfg)] | none => []) ∧
      (∀ p, p ≠ bakPath env cfg → s1.fs.files p = fs.files p) ∧
      (∀ A, fs.files cfg = some A → s1.fs.files (bakPath env cfg) = some A) := by
    cases hex : fs.files cfg with
    | none =>
      have hbk : backupFile env ⟨fs, [Ev.mkdir P.root]⟩ cfg
          = BackupRes.ok ⟨fs, [Ev.mkdir P.root]⟩ none := by
        simp only [backupFile, hex]
      refine ⟨⟨fs, [Ev.mkdir P.root]⟩, ?_, by simp, fun p _ => rfl, ?_⟩
      · show (match backupFile env ⟨fs, [Ev.mkdir P.root]⟩ cfg with
          | .fail s' msg => (⟨s', some msg⟩ : WOut)
          | .ok s1 _bp =>
            (match (writeOCCommands env P.commandDir
                (writeOCNamed P.agentsDir ".md" (doWriteJson s1 cfg bundle.config)
                  bundle.agents) bundle.commandFiles).err with
             | some _ => writeOCCommands env P.commandDir
                (writeOCNamed P.agentsDir ".md" (doWriteJson s1 cfg bundle.config)
                  bundle.agents) bundle.commandFiles
             | none =>
               ⟨copySkillDirs P.skillsDir
                 (writeOCNamed P.pluginsDir ""
                   (writeOCCommands env P.commandDir
                     (writeOCNamed P.agentsDir ".md" (doWriteJson s1 cfg bundle.config)
                       bundle.agents) bundle.commandFiles).s
                   bundle.plugins)
                 bundle.skillDirs, none⟩)) = _
        rw [hbk]
      · intro A hA
        exact Option.noConfusion hA
    | some A0 =>
      have hbk : backupFile env ⟨fs, [Ev.mkdir P.root]⟩ cfg
          = BackupRes.ok ⟨setFile fs (bakPath env cfg) A0,
              [Ev.mkdir P.root, Ev.copy cfg (bakPath env cfg)]⟩ (some (bakPath env cfg)) := by
        simp only [backupFile, hex, hcf, Bool.false_eq_true, if_false, bakPath]
        rfl
      refine ⟨⟨setFile fs (bakPath env cfg) A0,
          [Ev.mkdir P.root, Ev.copy cfg (bakPath env cfg)]⟩, ?_, by simp, ?_, ?_⟩
      · show (match backupFile env ⟨fs, [Ev.mkdir P.root]⟩ cfg with
          | .fail s' msg => (⟨s', some msg⟩ : WOut)
          | .ok s1 _bp =>
            (match (writeOCCommands env P.commandDir
                (writeOCNamed P.agentsDir ".md" (doWriteJson s1 cfg bundle.config)
                  bundle.agents) bundle.commandFiles).err with
             | some _ => writeOCCommands env P.commandDir
                (writeOCNamed P.agentsDir ".md" (doWriteJson s1 cfg bundle.config)
                  bundle.agents) bundle.commandFiles
             | none =>
               ⟨copySkillDirs P.skillsDir
                 (writeOCNamed P.pluginsDir ""
                   (writeOCCommands env P.commandDir
                     (writeOCNamed P.agentsDir ".md" (doWriteJson s1 cfg bundle.config)
                       bundle.agents) bundle.commandFiles).s
                   bundle.plugins)
                 bundle.skillDirs, none⟩)) = _
        rw [hbk]
      · intro p hp
        exact setFile_ne _ _ _ _ hp
      · intro A hA
        injection hA with hAA
        rw [← hAA]
        exact setFile_eq _ _ _
  obtain ⟨s1, heq, htr1, hpres1, hbak1⟩ := key
  set s2 := doWriteJson s1 cfg bundle.config with hs2
  set s3 := writeOCNamed P.agentsDir ".md" s2 bundle.agents with hs3
  obtain ⟨hagtr, hagpres⟩ := writeOCNamed_run P.agentsDir ".md" bundle.agents s2
  have hentry : ∀ f ∈ bundle.commandFiles,
      s3.fs.files (ocCmdDest P.commandDir f) = fs.files (ocCmdDest P.commandDir f) := by
    intro f hf
    rw [hagpres _ (fun a ha => hag a ha f hf)]
    show (setFile s1.fs cfg (FileContent.jsonF bundle.config)).files (ocCmdDest P.commandDir f)
      = fs.files (ocCmdDest P.commandDir f)
    rw [setFile_ne _ _ _ _ (hcc f hf).1]
    exact hpres1 _ (hcc f hf).2.1
  obtain ⟨run1, run2, run3, run4, run5⟩ :=
    writeOCCommands_run env P.commandDir bundle.commandFiles s3 hcmdf hdd hbd
  rw [heq, run1]
  obtain ⟨hpltr, hplpres⟩ :=
    writeOCNamed_run P.pluginsDir "" bundle.plugins
      (writeOCCommands env P.commandDir s3 bundle.commandFiles).s
  obtain ⟨hsktr, hskfs⟩ :=
    copySkillDirs_run P.skillsDir bundle.skillDirs
      (writeOCNamed P.pluginsDir ""
        (writeOCCommands env P.commandDir s3 bundle.commandFiles).s bundle.plugins)
  refine ⟨rfl, ?_, ?_, ?_, ?_, ?_⟩
  · -- trace
    show (copySkillDirs P.skillsDir _ bundle.skillDirs).tr = _
    rw [hsktr, hpltr, run2, ocCmdEvents_congr env P.commandDir s3.fs fs _ hentry, hagtr]
    have hs2tr : s2.tr = s1.tr ++ [Ev.write cfg (FileContent.jsonF bundle.config)] := rfl
    rw [hs2tr, htr1]
  · -- final config content
    show (copySkillDirs P.skillsDir _ bundle.skillDirs).fs.files cfg = _
    rw [hskfs, hplpres _ (fun a ha => (hpl a ha).1),
      run3 _ (fun f hf => ⟨(hcc f hf).1, (hcc f hf).2.2.1⟩),
      hagpres _ (fun a ha => (hagc a ha).1)]
    exact setFile_eq _ _ _
  · -- config backup content
    intro A hA
    show (copySkillDirs P.skillsDir _ bundle.skillDirs).fs.files (bakPath env cfg) = _
    rw [hskfs, hplpres _ (fun a ha => (hpl a ha).2.1),
      run3 _ (fun f hf => ⟨(hcc f hf).2.1, (hcc f hf).2.2.2⟩),
      hagpres _ (fun a ha => (hagc a ha).2)]
    show (setFile s1.fs cfg (FileContent.jsonF bundle.config)).files (bakPath env cfg) = _
    rw [setFile_ne _ _ _ _ (bakPath_ne_self env cfg)]
    exact hbak1 A hA
  · -- command destinations
    intro f hf
    show (copySkillDirs P.skillsDir _ bundle.skillDirs).fs.files (ocCmdDest P.commandDir f) = _
    rw [hskfs, hplpres _ (fun a ha => ((hpl a ha).2.2 f hf).1)]
    exact run4 f hf
  · -- command backups
    intro f hf A hA
    show (copySkillDirs P.skillsDir _ bundle.skillDirs).fs.files
      (bakPath env (ocCmdDest P.commandDir f)) = _
    rw [hskfs, hplpres _ (fun a ha => ((hpl a ha).2.2 f hf).2)]
    refine run5 f hf A ?_
    rw [hentry f hf]
    exact hA

/-- Full characterization of a `writeGeminiBundle` run with a non-empty
`mcpServers` map whose settings backup does not fail and whose artifact
destinations avoid `settings.json`. -/
theorem writeGeminiBundle_run (env : WEnv) (root : String) (bundle : GeminiBundle)
    (servers : List (String × String)) (fs : FS)
    (hmcp : bundle.mcpServers = some servers)
    (hne : servers.isEmpty = false)
    (hfl : env.copyFails (pJoin (resolveGeminiPaths root).geminiDir "settings.json") = false)
    (hsk : ∀ f ∈ bundle.generatedSkills,
      genSkillDest (resolveGeminiPaths root).skillsDir f
        ≠ pJoin (resolveGeminiPaths root).geminiDir "settings.json")
    (hcm : ∀ f ∈ bundle.commands,
      gemCmdDest (resolveGeminiPaths root).commandsDir f
        ≠ pJoin (resolveGeminiPaths root).geminiDir "settings.json") :
    (writeGeminiBundle env root bundle fs).err = none ∧
    (writeGeminiBundle env root bundle fs).s.tr =
      [Ev.mkdir (resolveGeminiPaths root).geminiDir]
      ++ bundle.generatedSkills.map (fun f =>
          Ev.write (genSkillDest (resolveGeminiPaths root).skillsDir f)
            (FileContent.raw (f.content ++ "\n")))
      ++ bundle.skillDirs.map (fun d =>
          Ev.copyDir d.sourceDir (pJoin (resolveGeminiPaths root).skillsDir d.name))
      ++ bundle.commands.map (fun f =>
          Ev.write (gemCmdDest (resolveGeminiPaths root).commandsDir f)
            (FileContent.raw (f.content ++ "\n")))
      ++ (match fs.files (pJoin (resolveGeminiPaths root).geminiDir "settings.json") with
          | none => [Ev.write (pJoin (resolveGeminiPaths root).geminiDir "settings.json")
              (FileContent.jsonF (geminiMergeSettings [] servers))]
          | some (FileContent.jsonF o) =>
            [Ev.copy (pJoin (resolveGeminiPaths root).geminiDir "settings.json")
              (bakPath env (pJoin (resolveGeminiPaths root).geminiDir "settings.json")),
             Ev.write (pJoin (resolveGeminiPaths root).geminiDir "settings.json")
              (FileContent.jsonF (geminiMergeSettings o servers))]
          | some (FileContent.raw _) =>
            [Ev.copy (pJoin (resolveGeminiPaths root).geminiDir "settings.json")
              (bakPath env (pJoin (resolveGeminiPaths root).geminiDir "settings.json")),
             Ev.warn "Warning: existing settings.json could not be parsed and will be replaced.",
             Ev.write (pJoin (resolveGeminiPaths root).geminiDir "settings.json")
              (FileContent.jsonF (geminiMergeSettings [] servers))]) ∧
    (writeGeminiBundle env root bundle fs).s.fs.files
        (pJoin (resolveGeminiPaths root).geminiDir "settings.json")
      = some (FileContent.jsonF (geminiMergeSettings
          (match fs.files (pJoin (resolveGeminiPaths root).geminiDir "settings.json") with
           | some (FileContent.jsonF o) => o
           | _ => []) servers)) ∧
    (∀ c, fs.files (pJoin (resolveGeminiPaths root).geminiDir "settings.json") = some c →
      (writeGeminiBundle env root bundle fs).s.fs.files
        (bakPath env (pJoin (resolveGeminiPaths root).geminiDir "settings.json")) = some c) ∧
    (∀ p, p ≠ pJoin (resolveGeminiPaths root).geminiDir "settings.json" →
      p ≠ bakPath env (pJoin (resolveGeminiPaths root).geminiDir "settings.json") →
      (∀ f ∈ bundle.generatedSkills, genSkillDest (resolveGeminiPaths root).skillsDir f ≠ p) →
      (∀ f ∈ bundle.commands, gemCmdDest (resolveGeminiPaths root).commandsDir f ≠ p) →
      (writeGeminiBundle env root bundle fs).s.fs.files p = fs.files p) := by
  set G := resolveGeminiPaths root with hG
  set sp := pJoin G.geminiDir "settings.json" with hspdef
  set s0 : WState := ⟨fs, [Ev.mkdir G.geminiDir]⟩ with hs0
  set s1 := writeGeneratedSkills G.skillsDir s0 bundle.generatedSkills with hs1
  set s2 := copySkillDirs G.skillsDir s1 bundle.skillDirs with hs2
  set s3 := writeGeminiCommands G.commandsDir s2 bundle.commands with hs3
  have hred : writeGeminiBundle env root bundle fs
      = geminiSettingsStep env G.geminiDir servers s3 := by
    show (match bundle.mcpServers with
      | some servers =>
        if servers.isEmpty then (⟨s3, none⟩ : WOut)
        else geminiSettingsStep env G.geminiDir servers s3
      | none => (⟨s3, none⟩ : WOut)) = _
    rw [hmcp]
    simp only [hne, Bool.false_eq_true, if_false]
  obtain ⟨hsktr, hskpres⟩ := writeGeneratedSkills_run G.skillsDir bundle.generatedSkills s0
  obtain ⟨hsdtr, hsdfs⟩ := copySkillDirs_run G.skillsDir bundle.skillDirs s1
  obtain ⟨hcmtr, hcmpres, _⟩ := writeGeminiCommands_run G.commandsDir bundle.commands s2
  have h3p : ∀ p, (∀ f ∈ bundle.generatedSkills, genSkillDest G.skillsDir f ≠ p) →
      (∀ f ∈ bundle.commands, gemCmdDest G.commandsDir f ≠ p) →
      s3.fs.files p = fs.files p := by
    intro p h1 h2
    rw [hcmpres p h2, hsdfs, hskpres p h1]
  have h3sp : s3.fs.files sp = fs.files sp := h3p sp hsk hcm
  have h3tr : s3.tr = [Ev.mkdir G.geminiDir]
      ++ bundle.generatedSkills.map (fun f =>
          Ev.write (genSkillDest G.skillsDir f) (FileContent.raw (f.content ++ "\n")))
      ++ bundle.skillDirs.map (fun d => Ev.copyDir d.sourceDir (pJoin G.skillsDir d.name))
      ++ bundle.commands.map (fun f =>
          Ev.write (gemCmdDest G.commandsDir f) (FileContent.raw (f.content ++ "\n"))) := by
    rw [hcmtr, hsdtr, hsktr]
  rw [hred]
  cases hex : fs.files sp with
  | none =>
    have hbk : backupFile env s3 sp = BackupRes.ok s3 none := by
      simp only [backupFile, h3sp, hex]
    have hstep : geminiSettingsStep env G.geminiDir servers s3
        = ⟨doWriteJson s3 sp (geminiMergeSettings [] servers), none⟩ := by
      simp only [geminiSettingsStep, hbk, h3sp, hex]
    rw [hstep]
    refine ⟨rfl, ?_, ?_, ?_, ?_⟩
    · show s3.tr ++ [Ev.write sp (FileContent.jsonF (geminiMergeSettings [] servers))] = _
      rw [h3tr]
    · exact setFile_eq _ _ _
    · intro c hc
      exact Option.noConfusion hc
    · intro p hp1 _hp2 h1 h2
      show (setFile s3.fs sp _).files p = fs.files p
      rw [setFile_ne _ _ _ _ hp1]
      exact h3p p h1 h2
  | some c0 =>
    have hbk : backupFile env s3 sp
        = BackupRes.ok ⟨setFile s3.fs (bakPath env sp) c0, s3.tr ++ [Ev.copy sp (bakPath env sp)]⟩
            (some (bakPath env sp)) := by
      simp only [backupFile, h3sp, hex, hfl, Bool.false_eq_true, if_false, bakPath]
    have hspsb : (setFile s3.fs (bakPath env sp) c0).files sp = some c0 := by
      rw [setFile_ne _ _ _ _ (fun h => bakPath_ne_self env sp h.symm)]
      rw [h3sp, hex]
    cases c0 with
    | jsonF o =>
      have hstep : geminiSettingsStep env G.geminiDir servers s3
          = ⟨doWriteJson
              ⟨setFile s3.fs (bakPath env sp) (FileContent.jsonF o),
               s3.tr ++ [Ev.copy sp (bakPath env sp)]⟩
              sp (geminiMergeSettings o servers), none⟩ := by
        simp only [geminiSettingsStep, hbk, hspsb]
      rw [hstep]
      refine ⟨rfl, ?_, ?_, ?_, ?_⟩
      · show (s3.tr ++ [Ev.copy sp (bakPath env sp)])
            ++ [Ev.write sp (FileContent.jsonF (geminiMergeSettings o servers))] = _
        rw [h3tr]
        simp only [List.append_assoc]
        rfl
      · exact setFile_eq _ _ _
      · intro c hc
        injection hc with hcc0
        rw [← hcc0]
        show (setFile (setFile s3.fs (bakPath env sp) (FileContent.jsonF o)) sp
          (FileContent.jsonF (geminiMergeSettings o servers))).files (bakPath env sp) = _
        rw [setFile_ne _ _ _ _ (bakPath_ne_self env sp)]
        exact setFile_eq _ _ _
      · intro p hp1 hp2 h1 h2
        show (setFile (setFile s3.fs (bakPath env sp) (FileContent.jsonF o)) sp _).files p
          = fs.files p
        rw [setFile_ne _ _ _ _ hp1, setFile_ne _ _ _ _ hp2]
        exact h3p p h1 h2
    | raw A =>
      have hstep : geminiSettingsStep env G.geminiDir servers s3
          = ⟨doWriteJson
              ⟨setFile s3.fs (bakPath env sp) (FileContent.raw A),
               (s3.tr ++ [Ev.copy sp (bakPath env sp)])
                 ++ [Ev.warn "Warning: existing settings.json could not be parsed and will be replaced."]⟩
              sp (geminiMergeSettings [] servers), none⟩ := by
        simp only [geminiSettingsStep, hbk, hspsb, doWarn]
      rw [hstep]
      refine ⟨rfl, ?_, ?_, ?_, ?_⟩
      · show ((s3.tr ++ [Ev.copy sp (bakPath env sp)])
            ++ [Ev.warn "Warning: existing settings.json could not be parsed and will be replaced."])
            ++ [Ev.write sp (FileContent.jsonF (geminiMergeSettings [] servers))] = _
        rw [h3tr]
        simp only [List.append_assoc]
        rfl
      · exact setFile_eq _ _ _
      · intro c hc
        injection hc with hcc0
        rw [← hcc0]
        show (setFile (setFile s3.fs (bakPath env sp) (FileContent.raw A)) sp
          (FileContent.jsonF (geminiMergeSettings [] servers))).files (bakPath env sp) = _
        rw [setFile_ne _ _ _ _ (bakPath_ne_self env sp)]
        exact setFile_eq _ _ _
      · intro p hp1 hp2 h1 h2
        show (setFile (setFile s3.fs (bakPath env sp) (FileContent.raw A)) sp _).files p
          = fs.files p
        rw [setFile_ne _ _ _ _ hp1, setFile_ne _ _ _ _ hp2]
        exact h3p p h1 h2

theorem countP_map_eq_zero {α : Type} (p : Ev → Bool) (g : α → Ev) (l : List α)
    (h : ∀ x ∈ l, p (g x) = false) : (l.map g).countP p = 0 := by
  rw [List.countP_eq_zero]
  intro a ha
  obtain ⟨x, hx, hgx⟩ := List.mem_map.mp ha
  rw [← hgx]
  simp [h x hx]

theorem isWriteTo_write_ne (dest d : String) (c : FileContent) (h : d ≠ dest) :
    isWriteTo dest (Ev.write d c) = false := by
  simp [isWriteTo, h]

theorem isCopySrc_copy_ne (dest d b : String) (h : d ≠ dest) :
    isCopySrc dest (Ev.copy d b) = false := by
  simp [isCopySrc, h]

/-- The command loop aborts when the backup of a member's existing
destination fails, and that destination is left unchanged. -/
theorem writeOCCommands_fail (env : WEnv) (commandDir : String) (l : List NamedFile)
    (s : WState) (c : NamedFile) (hc : c ∈ l)
    (hcfl : env.copyFails (ocCmdDest commandDir c) = true)
    (hex : s.fs.files (ocCmdDest commandDir c) ≠ none)
    (hdd : List.Pairwise (fun f g => ocCmdDest commandDir f ≠ ocCmdDest commandDir g) l)
    (hbd : ∀ f ∈ l, ∀ g ∈ l, bakPath env (ocCmdDest commandDir f) ≠ ocCmdDest commandDir g) :
    (writeOCCommands env commandDir s l).err.isSome = true ∧
    (writeOCCommands env commandDir s l).s.fs.files (ocCmdDest commandDir c)
      = s.fs.files (ocCmdDest commandDir c) := by
  induction l generalizing s with
  | nil => exact absurd hc (List.not_mem_nil c)
  | cons f rest ih =>
    have hddf : ∀ g ∈ rest, ocCmdDest commandDir f ≠ ocCmdDest commandDir g :=
      (List.pairwise_cons.mp hdd).1
    have hddr := (List.pairwise_cons.mp hdd).2
    have hbdr : ∀ a ∈ rest, ∀ b ∈ rest,
        bakPath env (ocCmdDest commandDir a) ≠ ocCmdDest commandDir b :=
      fun a ha b hb => hbd a (List.mem_cons_of_mem f ha) b (List.mem_cons_of_mem f hb)
    rcases List.mem_cons.mp hc with hcf2 | hcrest
    · subst hcf2
      cases hex2 : s.fs.files (ocCmdDest commandDir c) with
      | none => exact absurd hex2 hex
      | some A =>
        have step : writeOCCommands env commandDir s (c :: rest)
            = ⟨s, some ("backup failed: " ++ ocCmdDest commandDir c)⟩ := by
          show (match backupFile env s (ocCmdDest commandDir c) with
            | .fail s' msg => (⟨s', some msg⟩ : WOut)
            | .ok s1 _bp => writeOCCommands env commandDir
                (doWriteText s1 (ocCmdDest commandDir c) (c.content ++ "\n")) rest) = _
          rw [backupFile, hex2]
          simp only [hcfl, if_true]
        rw [step]
        exact ⟨rfl, hex2⟩
    · cases hex2 : s.fs.files (ocCmdDest commandDir f) with
      | none =>
        have step : writeOCCommands env commandDir s (f :: rest)
            = writeOCCommands env commandDir
                (doWriteText s (ocCmdDest commandDir f) (f.content ++ "\n")) rest := by
          show (match backupFile env s (ocCmdDest commandDir f) with
            | .fail s' msg => (⟨s', some msg⟩ : WOut)
            | .ok s1 _bp => writeOCCommands env commandDir
                (doWriteText s1 (ocCmdDest commandDir f) (f.content ++ "\n")) rest) = _
          rw [backupFile, hex2]
        rw [step]
        have hpresc : (doWriteText s (ocCmdDest commandDir f) (f.content ++ "\n")).fs.files
            (ocCmdDest commandDir c) = s.fs.files (ocCmdDest commandDir c) :=
          setFile_ne _ _ _ _ fun h => (hddf c hcrest) h.symm
        obtain ⟨ih1, ih2⟩ := ih (doWriteText s (ocCmdDest commandDir f) (f.content ++ "\n"))
          hcrest (by rw [hpresc]; exact hex) hddr hbdr
        exact ⟨ih1, ih2.trans hpresc⟩
      | some A =>
        cases hcfl2 : env.copyFails (ocCmdDest commandDir f) with
        | true =>
          have step : writeOCCommands env commandDir s (f :: rest)
              = ⟨s, some ("backup failed: " ++ ocCmdDest commandDir f)⟩ := by
            show (match backupFile env s (ocCmdDest commandDir f) with
              | .fail s' msg => (⟨s', some msg⟩ : WOut)
              | .ok s1 _bp => writeOCCommands env commandDir
                  (doWriteText s1 (ocCmdDest commandDir f) (f.content ++ "\n")) rest) = _
            rw [backupFile, hex2]
            simp only [hcfl2, if_true]
          rw [step]
          exact ⟨rfl, rfl⟩
        | false =>
          have step : writeOCCommands env commandDir s (f :: rest)
              = writeOCCommands env commandDir
                  (doWriteText
                    ⟨setFile s.fs (bakPath env (ocCmdDest commandDir f)) A,
                     s.tr ++ [Ev.copy (ocCmdDest commandDir f)
                       (bakPath env (ocCmdDest commandDir f))]⟩
                    (ocCmdDest commandDir f) (f.content ++ "\n")) rest := by
            show (match backupFile env s (ocCmdDest commandDir f) with
              | .fail s' msg => (⟨s', some msg⟩ : WOut)
              | .ok s1 _bp => writeOCCommands env commandDir
                  (doWriteText s1 (ocCmdDest commandDir f) (f.content ++ "\n")) rest) = _
            rw [backupFile, hex2]
            simp only [hcfl2, Bool.false_eq_true, if_false, bakPath]
          rw [step]
          have hpresc : (doWriteText
              ⟨setFile s.fs (bakPath env (ocCmdDest commandDir f)) A,
               s.tr ++ [Ev.copy (ocCmdDest commandDir f)
                 (bakPath env (ocCmdDest commandDir f))]⟩
              (ocCmdDest commandDir f) (f.content ++ "\n")).fs.files (ocCmdDest commandDir c)
              = s.fs.files (ocCmdDest commandDir c) := by
            show (setFile (setFile s.fs (bakPath env (ocCmdDest commandDir f)) A)
              (ocCmdDest commandDir f) _).files (ocCmdDest commandDir c)
              = s.fs.files (ocCmdDest commandDir c)
            rw [setFile_ne _ _ _ _ fun h => (hddf c hcrest) h.symm]
            exact setFile_ne _ _ _ _ fun h =>
              hbd f (List.mem_cons_self f rest) c hc h.symm
          obtain ⟨ih1, ih2⟩ := ih _ hcrest (by rw [hpresc]; exact hex) hddr hbdr
          exact ⟨ih1, ih2.trans hpresc⟩

/-- When the backup of an existing `opencode.json` fails, `writeOpenCodeBundle`
propagates the error immediately and the entire file system is untouched. -/
theorem writeOpenCodeBundle_configBackupFail (env : WEnv) (root : String)
    (bundle : OpenCodeBundle) (fs : FS)
    (hfl : env.copyFails (resolveOpenCodePaths root).configPath = true)
    (hex : fs.files (resolveOpenCodePaths root).configPath ≠ none) :
    (writeOpenCodeBundle env root bundle fs).err.isSome = true ∧
    ∀ p, (writeOpenCodeBundle env root bundle fs).s.fs.files p = fs.files p := by
  set P := resolveOpenCodePaths root with hP
  cases hex2 : fs.files P.configPath with
  | none => exact absurd hex2 hex
  | some A =>
    have step : writeOpenCodeBundle env root bundle fs
        = ⟨⟨fs, [Ev.mkdir P.root]⟩, some ("backup failed: " ++ P.configPath)⟩ := by
      show (match backupFile env ⟨fs, [Ev.mkdir P.root]⟩ P.configPath with
        | .fail s' msg => (⟨s', some msg⟩ : WOut)
        | .ok s1 _bp =>
          (match (writeOCCommands env P.commandDir
              (writeOCNamed P.agentsDir ".md" (doWriteJson s1 P.configPath bundle.config)
                bundle.agents) bundle.commandFiles).err with
           | some _ => writeOCCommands env P.commandDir
              (writeOCNamed P.agentsDir ".md" (doWriteJson s1 P.configPath bundle.config)
                bundle.agents) bundle.commandFiles
           | none =>
             ⟨copySkillDirs P.skillsDir
               (writeOCNamed P.pluginsDir ""
                 (writeOCCommands env P.commandDir
                   (writeOCNamed P.agentsDir ".md" (doWriteJson s1 P.configPath bundle.config)
                     bundle.agents) bundle.commandFiles).s
                 bundle.plugins)
               bundle.skillDirs, none⟩)) = _
      rw [backupFile, hex2]
      simp only [hfl, if_true]
    rw [step]
    exact ⟨rfl, fun p => rfl⟩

/-- When the backup of an existing OpenCode command file fails, the writer
propagates the error and that command destination keeps its prior content. -/
theorem writeOpenCodeBundle_commandBackupFail (env : WEnv) (root : String)
    (bundle : OpenCodeBundle) (fs : FS) (c : NamedFile)
    (hc : c ∈ bundle.commandFiles)
    (hcfl : env.copyFails (ocCmdDest (resolveOpenCodePaths root).commandDir c) = true)
    (hcf : env.copyFails (resolveOpenCodePaths root).configPath = false)
    (hex : fs.files (ocCmdDest (resolveOpenCodePaths root).commandDir c) ≠ none)
    (hdd : List.Pairwise (fun f g =>
      ocCmdDest (resolveOpenCodePaths root).commandDir f
        ≠ ocCmdDest (resolveOpenCodePaths root).commandDir g) bundle.commandFiles)
    (hbd : ∀ f ∈ bundle.commandFiles, ∀ g ∈ bundle.commandFiles,
      bakPath env (ocCmdDest (resolveOpenCodePaths root).commandDir f)
        ≠ ocCmdDest (resolveOpenCodePaths root).commandDir g)
    (hag : ∀ a ∈ bundle.agents,
      ocNamedDest (resolveOpenCodePaths root).agentsDir ".md" a
        ≠ ocCmdDest (resolveOpenCodePaths root).commandDir c)
    (hcfgc : (resolveOpenCodePaths root).configPath
        ≠ ocCmdDest (resolveOpenCodePaths root).commandDir c)
    (hbakc : bakPath env (resolveOpenCodePaths root).configPath
        ≠ ocCmdDest (resolveOpenCodePaths root).commandDir c) :
    (writeOpenCodeBundle env root bundle fs).err.isSome = true ∧
    (writeOpenCodeBundle env root bundle fs).s.fs.files
        (ocCmdDest (resolveOpenCodePaths root).commandDir c)
      = fs.files (ocCmdDest (resolveOpenCodePaths root).commandDir c) := by
  set P := resolveOpenCodePaths root with hP
  set cfg := P.configPath with hcfgdef
  have key : ∃ s1 : WState,
      writeOpenCodeBundle env root bundle fs
        = (match (writeOCCommands env P.commandDir
              (writeOCNamed P.agentsDir ".md" (doWriteJson s1 cfg bundle.config) bundle.agents)
              bundle.commandFiles).err with
           | some _ => writeOCCommands env P.commandDir
              (writeOCNamed P.agentsDir ".md" (doWriteJson s1 cfg bundle.config) bundle.agents)
              bundle.commandFiles
           | none =>
             ⟨copySkillDirs P.skillsDir
               (writeOCNamed P.pluginsDir ""
                 (writeOCCommands env P.commandDir
                   (writeOCNamed P.agentsDir ".md" (doWriteJson s1 cfg bundle.config)
                     bundle.agents) bundle.commandFiles).s
                 bundle.plugins)
               bundle.skillDirs, none⟩) ∧
      (∀ p, p ≠ bakPath env cfg → s1.fs.files p = fs.files p) := by
    cases hex2 : fs.files cfg with
    | none =>
      have hbk : backupFile env ⟨fs, [Ev.mkdir P.root]⟩ cfg
          = BackupRes.ok ⟨fs, [Ev.mkdir P.root]⟩ none := by
        simp only [backupFile, hex2]
      refine ⟨⟨fs, [Ev.mkdir P.root]⟩, ?_, fun p _ => rfl⟩
      show (match backupFile env ⟨fs, [Ev.mkdir P.root]⟩ cfg with
        | .fail s' msg => (⟨s', some msg⟩ : WOut)
        | .ok s1 _bp =>
          (match (writeOCCommands env P.commandDir
              (writeOCNamed P.agentsDir ".md" (doWriteJson s1 cfg bundle.config)
                bundle.agents) bundle.commandFiles).err with
           | some _ => writeOCCommands env P.commandDir
              (writeOCNamed P.agentsDir ".md" (doWriteJson s1 cfg bundle.config)
                bundle.agents) bundle.commandFiles
           | none =>
             ⟨copySkillDirs P.skillsDir
               (writeOCNamed P.pluginsDir ""
                 (writeOCCommands env P.commandDir
                   (writeOCNamed P.agentsDir ".md" (doWriteJson s1 cfg bundle.config)
                     bundle.agents) bundle.commandFiles).s
                 bundle.plugins)
               bundle.skillDirs, none⟩)) = _
      rw [hbk]
    | some A0 =>
      have hbk : backupFile env ⟨fs, [Ev.mkdir P.root]⟩ cfg
          = BackupRes.ok ⟨setFile fs (bakPath env cfg) A0,
              [Ev.mkdir P.root, Ev.copy cfg (bakPath env cfg)]⟩ (some (bakPath env cfg)) := by
        simp only [backupFile, hex2, hcf, Bool.false_eq_true, if_false, bakPath]
        rfl
      refine ⟨⟨setFile fs (bakPath env cfg) A0,
          [Ev.mkdir P.root, Ev.copy cfg (bakPath env cfg)]⟩, ?_, ?_⟩
      · show (match backupFile env ⟨fs, [Ev.mkdir P.root]⟩ cfg with
          | .fail s' msg => (⟨s', some msg⟩ : WOut)
          | .ok s1 _bp =>
            (match (writeOCCommands env P.commandDir
                (writeOCNamed P.agentsDir ".md" (doWriteJson s1 cfg bundle.config)
                  bundle.agents) bundle.commandFiles).err with
             | some _ => writeOCCommands env P.commandDir
                (writeOCNamed P.agentsDir ".md" (doWriteJson s1 cfg bundle.config)
                  bundle.agents) bundle.commandFiles
             | none =>
               ⟨copySkillDirs P.skillsDir
                 (writeOCNamed P.pluginsDir ""
                   (writeOCCommands env P.commandDir
                     (writeOCNamed P.agentsDir ".md" (doWriteJson s1 cfg bundle.config)
                       bundle.agents) bundle.commandFiles).s
                   bundle.plugins)
                 bundle.skillDirs, none⟩)) = _
        rw [hbk]
      · intro p hp
        exact setFile_ne _ _ _ _ hp
  obtain ⟨s1, heq, hpres1⟩ := key
  set s2 := doWriteJson s1 cfg bundle.config with hs2
  set s3 := writeOCNamed P.agentsDir ".md" s2 bundle.agents with hs3
  obtain ⟨hagtr, hagpres⟩ := writeOCNamed_run P.agentsDir ".md" bundle.agents s2
  have hentryc : s3.fs.files (ocCmdDest P.commandDir c) = fs.files (ocCmdDest P.commandDir c) := by
    rw [hagpres _ hag]
    show (setFile s1.fs cfg (FileContent.jsonF bundle.config)).files (ocCmdDest P.commandDir c)
      = fs.files (ocCmdDest P.commandDir c)
    rw [setFile_ne _ _ _ _ fun h => hcfgc h.symm]
    exact hpres1 _ fun h => hbakc h.symm
  obtain ⟨hf1, hf2⟩ := writeOCCommands_fail env P.commandDir bundle.commandFiles s3 c hc hcfl
    (by rw [hentryc]; exact hex) hdd hbd
  obtain ⟨msg, hmsg⟩ := Option.isSome_iff_exists.mp hf1
  rw [heq, hmsg]
  constructor
  · show (writeOCCommands env P.commandDir s3 bundle.commandFiles).err.isSome = true
    rw [hmsg]
    rfl
  · show (writeOCCommands env P.commandDir s3 bundle.commandFiles).s.fs.files
        (ocCmdDest P.commandDir c) = fs.files (ocCmdDest P.commandDir c)
    exact hf2.trans hentryc

/-- When the backup of an existing `settings.json` fails, `writeGeminiBundle`
propagates the error, `settings.json` keeps its prior content, and no write
to `settings.json` appears anywhere in the trace. -/
theorem writeGeminiBundle_settingsBackupFail (env : WEnv) (root : String)
    (bundle : GeminiBundle) (servers : List (String × String)) (fs : FS)
    (hmcp : bundle.mcpServers = some servers)
    (hne : servers.isEmpty = false)
    (hfl : env.copyFails (pJoin (resolveGeminiPaths root).geminiDir "settings.json") = true)
    (hex : fs.files (pJoin (resolveGeminiPaths root).geminiDir "settings.json") ≠ none)
    (hsk : ∀ f ∈ bundle.generatedSkills,
      genSkillDest (resolveGeminiPaths root).skillsDir f
        ≠ pJoin (resolveGeminiPaths root).geminiDir "settings.json")
    (hcm : ∀ f ∈ bundle.commands,
      gemCmdDest (resolveGeminiPaths root).commandsDir f
        ≠ pJoin (resolveGeminiPaths root).geminiDir "settings.json") :
    (writeGeminiBundle env root bundle fs).err.isSome = true ∧
    (writeGeminiBundle env root bundle fs).s.fs.files
        (pJoin (resolveGeminiPaths root).geminiDir "settings.json")
      = fs.files (pJoin (resolveGeminiPaths root).geminiDir "settings.json") ∧
    (writeGeminiBundle env root bundle fs).s.tr.countP
        (isWriteTo (pJoin (resolveGeminiPaths root).geminiDir "settings.json")) = 0 := by
  set G := resolveGeminiPaths root with hG
  set sp := pJoin G.geminiDir "settings.json" with hspdef
  set s0 : WState := ⟨fs, [Ev.mkdir G.geminiDir]⟩ with hs0
  set s1 := writeGeneratedSkills G.skillsDir s0 bundle.generatedSkills with hs1
  set s2 := copySkillDirs G.skillsDir s1 bundle.skillDirs with hs2
  set s3 := writeGeminiCommands G.commandsDir s2 bundle.commands with hs3
  have hred : writeGeminiBundle env root bundle fs
      = geminiSettingsStep env G.geminiDir servers s3 := by
    show (match bundle.mcpServers with
      | some servers =>
        if servers.isEmpty then (⟨s3, none⟩ : WOut)
        else geminiSettingsStep env G.geminiDir servers s3
      | none => (⟨s3, none⟩ : WOut)) = _
    rw [hmcp]
    simp only [hne, Bool.false_eq_true, if_false]
  obtain ⟨hsktr, hskpres⟩ := writeGeneratedSkills_run G.skillsDir bundle.generatedSkills s0
  obtain ⟨hsdtr, hsdfs⟩ := copySkillDirs_run G.skillsDir bundle.skillDirs s1
  obtain ⟨hcmtr, hcmpres, _⟩ := writeGeminiCommands_run G.commandsDir bundle.commands s2
  have h3sp : s3.fs.files sp = fs.files sp := by
    rw [hcmpres sp hcm, hsdfs, hskpres sp hsk]
  have h3tr : s3.tr = [Ev.mkdir G.geminiDir]
      ++ bundle.generatedSkills.map (fun f =>
          Ev.write (genSkillDest G.skillsDir f) (FileContent.raw (f.content ++ "\n")))
      ++ bundle.skillDirs.map (fun d => Ev.copyDir d.sourceDir (pJoin G.skillsDir d.name))
      ++ bundle.commands.map (fun f =>
          Ev.write (gemCmdDest G.commandsDir f) (FileContent.raw (f.content ++ "\n"))) := by
    rw [hcmtr, hsdtr, hsktr]
  rw [hred]
  cases hex2 : fs.files sp with
  | none => exact absurd hex2 hex
  | some c0 =>
    have hstep : geminiSettingsStep env G.geminiDir servers s3
        = ⟨s3, some ("backup failed: " ++ sp)⟩ := by
      simp only [geminiSettingsStep, backupFile, h3sp, hex2, hfl, if_true]
    rw [hstep]
    refine ⟨rfl, h3sp.trans hex2, ?_⟩
    show s3.tr.countP (isWriteTo sp) = 0
    rw [h3tr]
    simp only [List.countP_append]
    rw [countP_map_eq_zero _ _ _ (fun f hf => isWriteTo_write_ne sp _ _ (hsk f hf)),
      countP_map_eq_zero _ _ _ (fun f hf => isWriteTo_write_ne sp _ _ (hcm f hf)),
      countP_map_eq_zero (isWriteTo sp)
        (fun d => Ev.copyDir d.sourceDir (pJoin G.skillsDir d.name)) bundle.skillDirs
        (fun d _ => rfl)]
    rfl

theorem ocCmdEvents_append (env : WEnv) (commandDir : String) (fs0 : FS)
    (l1 l2 : List NamedFile) :
    ocCmdEvents env commandDir fs0 (l1 ++ l2)
      = ocCmdEvents env commandDir fs0 l1 ++ ocCmdEvents env commandDir fs0 l2 := by
  induction l1 with
  | nil => rfl
  | cons f rest ih =>
    simp only [List.cons_append, ocCmdEvents, List.append_eq, ih, List.append_assoc]

theorem countP_ocCmdEvents_copy_zero (env : WEnv) (commandDir : String) (fs0 : FS)
    (l : List NamedFile) (q : String) (h : ∀ f ∈ l, ocCmdDest commandDir f ≠ q) :
    (ocCmdEvents env commandDir fs0 l).countP (isCopySrc q) = 0 := by
  induction l with
  | nil => rfl
  | cons f rest ih =>
    have hf := h f (List.mem_cons_self f rest)
    have hr := ih fun g hg => h g (List.mem_cons_of_mem f hg)
    cases hex : fs0.files (ocCmdDest commandDir f) with
    | none =>
      simp [ocCmdEvents, hex, List.countP_append, List.countP_cons, isCopySrc, isWriteTo, hf, hr]
    | some c =>
      simp [ocCmdEvents, hex, List.countP_append, List.countP_cons, isCopySrc, isWriteTo, hf, hr]

theorem countP_ocCmdEvents_write_zero (env : WEnv) (commandDir : String) (fs0 : FS)
    (l : List NamedFile) (q : String) (h : ∀ f ∈ l, ocCmdDest commandDir f ≠ q) :
    (ocCmdEvents env commandDir fs0 l).countP (isWriteTo q) = 0 := by
  induction l with
  | nil => rfl
  | cons f rest ih =>
    have hf := h f (List.mem_cons_self f rest)
    have hr := ih fun g hg => h g (List.mem_cons_of_mem f hg)
    cases hex : fs0.files (ocCmdDest commandDir f) with
    | none =>
      simp [ocCmdEvents, hex, List.countP_append, List.countP_cons, isCopySrc, isWriteTo, hf, hr]
    | some c =>
      simp [ocCmdEvents, hex, List.countP_append, List.countP_cons, isCopySrc, isWriteTo, hf, hr]

theorem spreadObj_nil_left {α : Type} (b : List (String × α)) : spreadObj [] b = b := by
  simp only [spreadObj, List.map_nil, List.nil_append]
  induction b with
  | nil => rfl
  | cons kv rest ih => simp [List.filter_cons, List.lookup, ih]

theorem geminiMergeSettings_nil (servers : List (String × String)) :
    geminiMergeSettings [] servers = [("mcpServers", JVal.objv servers)] := by
  simp [geminiMergeSettings, List.lookup, spreadObj_nil_left]

/-- Claim C4: when `writeGeminiBundle` runs with a non-empty `mcpServers` map
and the existing `settings.json` does not parse as JSON, the call does not
raise: exactly one warning is emitted, the unparseable original is still
backed up to `settings.json.bak.<timestamp>`, and the destination afterwards
contains exactly the incoming config object
`{"mcpServers": <bundle.mcpServers>}`. -/
theorem claim_C4_malformed_fallback (env : WEnv) (root : String) (bundle : GeminiBundle)
    (servers : List (String × String)) (A : String) (fs : FS)
    (hmcp : bundle.mcpServers = some servers)
    (hne : servers.isEmpty = false)
    (hex : fs.files (pJoin (resolveGeminiPaths root).geminiDir "settings.json")
      = some (FileContent.raw A))
    (hfl : env.copyFails (pJoin (resolveGeminiPaths root).geminiDir "settings.json") = false)
    (hsk : ∀ f ∈ bundle.generatedSkills,
      genSkillDest (resolveGeminiPaths root).skillsDir f
        ≠ pJoin (resolveGeminiPaths root).geminiDir "settings.json")
    (hcm : ∀ f ∈ bundle.commands,
      gemCmdDest (resolveGeminiPaths root).commandsDir f
        ≠ pJoin (resolveGeminiPaths root).geminiDir "settings.json") :
    (writeGeminiBundle env root bundle fs).err = none ∧
    (writeGeminiBundle env root bundle fs).s.tr.countP isWarnEv = 1 ∧
    (writeGeminiBundle env root bundle fs).s.fs.files
        (bakPath env (pJoin (resolveGeminiPaths root).geminiDir "settings.json"))
      = some (FileContent.raw A) ∧
    (writeGeminiBundle env root bundle fs).s.fs.files
        (pJoin (resolveGeminiPaths root).geminiDir "settings.json")
      = some (FileContent.jsonF [("mcpServers", JVal.objv servers)]) := by
  obtain ⟨r1, r2, r3, r4, _r5⟩ :=
    writeGeminiBundle_run env root bundle servers fs hmcp hne hfl hsk hcm
  refine ⟨r1, ?_, r4 _ hex, ?_⟩
  · rw [r2, hex]
    simp only [List.countP_append,
      countP_map_eq_zero isWarnEv (fun f =>
        Ev.write (genSkillDest (resolveGeminiPaths root).skillsDir f)
          (FileContent.raw (f.content ++ "\n"))) bundle.generatedSkills (fun x _ => rfl),
      countP_map_eq_zero isWarnEv (fun d =>
        Ev.copyDir d.sourceDir (pJoin (resolveGeminiPaths root).skillsDir d.name))
        bundle.skillDirs (fun x _ => rfl),
      countP_map_eq_zero isWarnEv (fun f =>
        Ev.write (gemCmdDest (resolveGeminiPaths root).commandsDir f)
          (FileContent.raw (f.content ++ "\n"))) bundle.commands (fun x _ => rfl)]
    rfl
  · rw [r3, hex, geminiMergeSettings_nil]

/-- Witness for `claim_C4_malformed_fallback` with existing content
`not json` and one incoming server. -/
theorem claim_C4_malformed_fallback_witness :
    (writeGeminiBundle ⟨fun _ => false, "T"⟩ "/w" ⟨[], [], [], some [("a", "1")]⟩
      ⟨fun p => if p = "/w/.gemini/settings.json"
        then some (FileContent.raw "not json") else none⟩).err = none ∧
    (writeGeminiBundle ⟨fun _ => false, "T"⟩ "/w" ⟨[], [], [], some [("a", "1")]⟩
      ⟨fun p => if p = "/w/.gemini/settings.json"
        then some (FileContent.raw "not json") else none⟩).s.fs.files
        "/w/.gemini/settings.json"
      = some (FileContent.jsonF [("mcpServers", JVal.objv [("a", "1")])]) := by
  have h := claim_C4_malformed_fallback ⟨fun _ => false, "T"⟩ "/w"
    ⟨[], [], [], some [("a", "1")]⟩ [("a", "1")] "not json"
    ⟨fun p => if p = "/w/.gemini/settings.json"
      then some (FileContent.raw "not json") else none⟩
    rfl rfl (by decide) rfl (by simp) (by simp)
  exact ⟨h.1, h.2.2.2⟩

/-- Claim C5: when the backup step fails for a destination file that exists,
the writer propagates the error and that destination's prior content is left
unchanged — for the OpenCode config file (where in fact nothing at all is
written), for OpenCode command files, and for Gemini's `settings.json` (where
moreover no write to `settings.json` appears anywhere in the trace). -/
theorem claim_C5_backup_failure_aborts :
    (∀ (env : WEnv) (root : String) (bundle : OpenCodeBundle) (fs : FS),
      env.copyFails (resolveOpenCodePaths root).configPath = true →
      fs.files (resolveOpenCodePaths root).configPath ≠ none →
      (writeOpenCodeBundle env root bundle fs).err.isSome = true ∧
      ∀ p, (writeOpenCodeBundle env root bundle fs).s.fs.files p = fs.files p) ∧
    (∀ (env : WEnv) (root : String) (bundle : OpenCodeBundle) (fs : FS) (c : NamedFile),
      c ∈ bundle.commandFiles →
      env.copyFails (ocCmdDest (resolveOpenCodePaths root).commandDir c) = true →
      env.copyFails (resolveOpenCodePaths root).configPath = false →
      fs.files (ocCmdDest (resolveOpenCodePaths root).commandDir c) ≠ none →
      List.Pairwise (fun f g =>
        ocCmdDest (resolveOpenCodePaths root).commandDir f
          ≠ ocCmdDest (resolveOpenCodePaths root).commandDir g) bundle.commandFiles →
      (∀ f ∈ bundle.commandFiles, ∀ g ∈ bundle.commandFiles,
        bakPath env (ocCmdDest (resolveOpenCodePaths root).commandDir f)
          ≠ ocCmdDest (resolveOpenCodePaths root).commandDir g) →
      (∀ a ∈ bundle.agents,
        ocNamedDest (resolveOpenCodePaths root).agentsDir ".md" a
          ≠ ocCmdDest (resolveOpenCodePaths root).commandDir c) →
      (resolveOpenCodePaths root).configPath
          ≠ ocCmdDest (resolveOpenCodePaths root).commandDir c →
      bakPath env (resolveOpenCodePaths root).configPath
          ≠ ocCmdDest (resolveOpenCodePaths root).commandDir c →
      (writeOpenCodeBundle env root bundle fs).err.isSome = true ∧
      (writeOpenCodeBundle env root bundle fs).s.fs.files
          (ocCmdDest (resolveOpenCodePaths root).commandDir c)
        = fs.files (ocCmdDest (resolveOpenCodePaths root).commandDir c)) ∧
    (∀ (env : WEnv) (root : String) (bundle : GeminiBundle)
        (servers : List (String × String)) (fs : FS),
      bundle.mcpServers = some servers →
      servers.isEmpty = false →
      env.copyFails (pJoin (resolveGeminiPaths root).geminiDir "settings.json") = true →
      fs.files (pJoin (resolveGeminiPaths root).geminiDir "settings.json") ≠ none →
      (∀ f ∈ bundle.generatedSkills,
        genSkillDest (resolveGeminiPaths root).skillsDir f
          ≠ pJoin (resolveGeminiPaths root).geminiDir "settings.json") →
      (∀ f ∈ bundle.commands,
        gemCmdDest (resolveGeminiPaths root).commandsDir f
          ≠ pJoin (resolveGeminiPaths root).geminiDir "settings.json") →
      (writeGeminiBundle env root bundle fs).err.isSome = true ∧
      (writeGeminiBundle env root bundle fs).s.fs.files
          (pJoin (resolveGeminiPaths root).geminiDir "settings.json")
        = fs.files (pJoin (resolveGeminiPaths root).geminiDir "settings.json") ∧
      (writeGeminiBundle env root bundle fs).s.tr.countP
          (isWriteTo (pJoin (resolveGeminiPaths root).geminiDir "settings.json")) = 0) := by
  refine ⟨?_, ?_, ?_⟩
  · intro env root bundle fs h1 h2
    exact writeOpenCodeBundle_configBackupFail env root bundle fs h1 h2
  · intro env root bundle fs c hc h1 h2 h3 h4 h5 h6 h7 h8
    exact writeOpenCodeBundle_commandBackupFail env root bundle fs c hc h1 h2 h3 h4 h5 h6 h7 h8
  · intro env root bundle servers fs h1 h2 h3 h4 h5 h6
    exact writeGeminiBundle_settingsBackupFail env root bundle servers fs h1 h2 h3 h4 h5 h6

/-- Witness for `claim_C5_backup_failure_aborts`: a failing config backup on
an existing `/r/.opencode/opencode.json` aborts the writer and leaves the
file untouched. -/
theorem claim_C5_backup_failure_aborts_witness :
    (writeOpenCodeBundle ⟨fun _ => true, "T"⟩ "/r/.opencode"
      ⟨[("k", JVal.atom "new")], [], [], [], []⟩
      ⟨fun p => if p = "/r/.opencode/opencode.json"
        then some (FileContent.jsonF [("k", JVal.atom "old")]) else none⟩).err.isSome = true ∧
    (writeOpenCodeBundle ⟨fun _ => true, "T"⟩ "/r/.opencode"
      ⟨[("k", JVal.atom "new")], [], [], [], []⟩
      ⟨fun p => if p = "/r/.opencode/opencode.json"
        then some (FileContent.jsonF [("k", JVal.atom "old")]) else none⟩).s.fs.files
      "/r/.opencode/opencode.json" = some (FileContent.jsonF [("k", JVal.atom "old")]) := by
  have h := claim_C5_backup_failure_aborts.1 ⟨fun _ => true, "T"⟩ "/r/.opencode"
    ⟨[("k", JVal.atom "new")], [], [], [], []⟩
    ⟨fun p => if p = "/r/.opencode/opencode.json"
      then some (FileContent.jsonF [("k", JVal.atom "old")]) else none⟩
    rfl (by decide)
  refine ⟨h.1, (h.2 "/r/.opencode/opencode.json").trans (by decide)⟩

/-- Claim C3 (counterexample): `writeGeminiBundle` overwrites an existing
Gemini command file `.gemini/commands/plan.toml` without creating any backup:
the run succeeds, the old content is replaced, and the trace contains no copy
event at all. -/
theorem claim_C3_counterexample :
    (writeGeminiBundle ⟨fun _ => false, "T"⟩ ".gemini" ⟨[], [], [⟨"plan", "new"⟩], none⟩
      ⟨fun p => if p = ".gemini/commands/plan.toml"
        then some (FileContent.raw "old") else none⟩).err = none ∧
    (writeGeminiBundle ⟨fun _ => false, "T"⟩ ".gemini" ⟨[], [], [⟨"plan", "new"⟩], none⟩
      ⟨fun p => if p = ".gemini/commands/plan.toml"
        then some (FileContent.raw "old") else none⟩).s.fs.files ".gemini/commands/plan.toml"
      = some (FileContent.raw "new\n") ∧
    (writeGeminiBundle ⟨fun _ => false, "T"⟩ ".gemini" ⟨[], [], [⟨"plan", "new"⟩], none⟩
      ⟨fun p => if p = ".gemini/commands/plan.toml"
        then some (FileContent.raw "old") else none⟩).s.tr.countP
        (fun e => match e with | Ev.copy _ _ => true | _ => false) = 0 := by
  exact ⟨by decide, by decide, by decide⟩

/-- Claim C3 (amended): for destinations that already exist with content `A`
when a writer is about to overwrite them — the OpenCode config file, OpenCode
command files, and Gemini's `settings.json` — the writer creates exactly one
sibling backup named `<original>.bak.<timestamp>` whose content equals `A`,
the backup copy happens strictly before the destination's new content is
written (no write to the destination precedes the unique copy event), and
afterwards the destination contains the new content.  Gemini command files
are excluded: they are overwritten without backup (see the counterexample). -/
theorem claim_C3_amended :
    (∀ (env : WEnv) (root : String) (bundle : OpenCodeBundle) (fs : FS),
      env.copyFails (resolveOpenCodePaths root).configPath = false →
      (∀ f ∈ bundle.commandFiles,
        env.copyFails (ocCmdDest (resolveOpenCodePaths root).commandDir f) = false) →
      List.Pairwise (fun f g =>
        ocCmdDest (resolveOpenCodePaths root).commandDir f
          ≠ ocCmdDest (resolveOpenCodePaths root).commandDir g) bundle.commandFiles →
      (∀ f ∈ bundle.commandFiles, ∀ g ∈ bundle.commandFiles,
        bakPath env (ocCmdDest (resolveOpenCodePaths root).commandDir f)
          ≠ ocCmdDest (resolveOpenCodePaths root).commandDir g) →
      (∀ a ∈ bundle.agents, ∀ f ∈ bundle.commandFiles,
        ocNamedDest (resolveOpenCodePaths root).agentsDir ".md" a
          ≠ ocCmdDest (resolveOpenCodePaths root).commandDir f) →
      (∀ a ∈ bundle.agents,
        ocNamedDest (resolveOpenCodePaths root).agentsDir ".md" a
            ≠ (resolveOpenCodePaths root).configPath ∧
        ocNamedDest (resolveOpenCodePaths root).agentsDir ".md" a
            ≠ bakPath env (resolveOpenCodePaths root).configPath) →
      (∀ f ∈ bundle.commandFiles,
        ocCmdDest (resolveOpenCodePaths root).commandDir f
            ≠ (resolveOpenCodePaths root).configPath ∧
        ocCmdDest (resolveOpenCodePaths root).commandDir f
            ≠ bakPath env (resolveOpenCodePaths root).configPath ∧
        bakPath env (ocCmdDest (resolveOpenCodePaths root).commandDir f)
            ≠ (resolveOpenCodePaths root).configPath ∧
        bakPath env (ocCmdDest (resolveOpenCodePaths root).commandDir f)
            ≠ bakPath env (resolveOpenCodePaths root).configPath) →
      (∀ a ∈ bundle.plugins,
        ocNamedDest (resolveOpenCodePaths root).pluginsDir "" a
            ≠ (resolveOpenCodePaths root).configPath ∧
        ocNamedDest (resolveOpenCodePaths root).pluginsDir "" a
            ≠ bakPath env (resolveOpenCodePaths root).configPath ∧
        ∀ f ∈ bundle.commandFiles,
          ocNamedDest (resolveOpenCodePaths root).pluginsDir "" a
              ≠ ocCmdDest (resolveOpenCodePaths root).commandDir f ∧
          ocNamedDest (resolveOpenCodePaths root).pluginsDir "" a
              ≠ bakPath env (ocCmdDest (resolveOpenCodePaths root).commandDir f)) →
      ((∀ A, fs.files (resolveOpenCodePaths root).configPath = some A →
        (writeOpenCodeBundle env root bundle fs).err = none ∧
        (writeOpenCodeBundle env root bundle fs).s.fs.files
            (bakPath env (resolveOpenCodePaths root).configPath) = some A ∧
        (writeOpenCodeBundle env root bundle fs).s.fs.files
            (resolveOpenCodePaths root).configPath = some (FileContent.jsonF bundle.config) ∧
        (writeOpenCodeBundle env root bundle fs).s.tr.countP
            (isCopySrc (resolveOpenCodePaths root).configPath) = 1 ∧
        (writeOpenCodeBundle env root bundle fs).s.tr.countP
            (isWriteTo (resolveOpenCodePaths root).configPath) = 1 ∧
        ∃ t1 t2, (writeOpenCodeBundle env root bundle fs).s.tr
            = t1 ++ Ev.copy (resolveOpenCodePaths root).configPath
                (bakPath env (resolveOpenCodePaths root).configPath) :: t2 ∧
          t1.countP (isWriteTo (resolveOpenCodePaths root).configPath) = 0) ∧
       (∀ c ∈ bundle.commandFiles, ∀ A,
        fs.files (ocCmdDest (resolveOpenCodePaths root).commandDir c) = some A →
        (writeOpenCodeBundle env root bundle fs).err = none ∧
        (writeOpenCodeBundle env root bundle fs).s.fs.files
            (bakPath env (ocCmdDest (resolveOpenCodePaths root).commandDir c)) = some A ∧
        (writeOpenCodeBundle env root bundle fs).s.fs.files
            (ocCmdDest (resolveOpenCodePaths root).commandDir c)
          = some (FileContent.raw (c.content ++ "\n")) ∧
        (writeOpenCodeBundle env root bundle fs).s.tr.countP
            (isCopySrc (ocCmdDest (resolveOpenCodePaths root).commandDir c)) = 1 ∧
        (writeOpenCodeBundle env root bundle fs).s.tr.countP
            (isWriteTo (ocCmdDest (resolveOpenCodePaths root).commandDir c)) = 1 ∧
        ∃ t1 t2, (writeOpenCodeBundle env root bundle fs).s.tr
            = t1 ++ Ev.copy (ocCmdDest (resolveOpenCodePaths root).commandDir c)
                (bakPath env (ocCmdDest (resolveOpenCodePaths root).commandDir c)) :: t2 ∧
          t1.countP (isWriteTo (ocCmdDest (resolveOpenCodePaths root).commandDir c)) = 0))) ∧
    (∀ (env : WEnv) (root : String) (bundle : GeminiBundle)
        (servers : List (String × String)) (fs : FS),
      bundle.mcpServers = some servers →
      servers.isEmpty = false →
      env.copyFails (pJoin (resolveGeminiPaths root).geminiDir "settings.json") = false →
      (∀ f ∈ bundle.generatedSkills,
        genSkillDest (resolveGeminiPaths root).skillsDir f
          ≠ pJoin (resolveGeminiPaths root).geminiDir "settings.json") →
      (∀ f ∈ bundle.commands,
        gemCmdDest (resolveGeminiPaths root).commandsDir f
          ≠ pJoin (resolveGeminiPaths root).geminiDir "settings.json") →
      ∀ c0, fs.files (pJoin (resolveGeminiPaths root).geminiDir "settings.json") = some c0 →
      (writeGeminiBundle env root bundle fs).err = none ∧
      (writeGeminiBundle env root bundle fs).s.fs.files
          (bakPath env (pJoin (resolveGeminiPaths root).geminiDir "settings.json")) = some c0 ∧
      (writeGeminiBundle env root bundle fs).s.tr.countP
          (isCopySrc (pJoin (resolveGeminiPaths root).geminiDir "settings.json")) = 1 ∧
      (writeGeminiBundle env root bundle fs).s.tr.countP
          (isWriteTo (pJoin (resolveGeminiPaths root).geminiDir "settings.json")) = 1 ∧
      ∃ t1 t2, (writeGeminiBundle env root bundle fs).s.tr
          = t1 ++ Ev.copy (pJoin (resolveGeminiPaths root).geminiDir "settings.json")
              (bakPath env (pJoin (resolveGeminiPaths root).geminiDir "settings.json")) :: t2 ∧
        t1.countP (isWriteTo (pJoin (resolveGeminiPaths root).geminiDir "settings.json")) = 0) := by
  constructor
  · intro env root bundle fs hcf hcmdf hdd hbd hag hagc hcc hpl
    obtain ⟨r1, r2, r3, r4, r5, r6⟩ :=
      writeOpenCodeBundle_run env root bundle fs hcf hcmdf hdd hbd hag hagc hcc hpl
    constructor
    · intro A hA
      refine ⟨r1, r4 A hA, r3, ?_, ?_, ?_⟩
      · rw [r2, hA]
        simp only [List.countP_append, List.countP_cons, List.countP_nil,
          countP_ocCmdEvents_copy_zero env (resolveOpenCodePaths root).commandDir fs
            bundle.commandFiles (resolveOpenCodePaths root).configPath
            (fun f hf => (hcc f hf).1),
          countP_map_eq_zero (isCopySrc (resolveOpenCodePaths root).configPath)
            (fun a => Ev.write (ocNamedDest (resolveOpenCodePaths root).agentsDir ".md" a)
              (FileContent.raw (a.content ++ "\n"))) bundle.agents (fun x _ => rfl),
          countP_map_eq_zero (isCopySrc (resolveOpenCodePaths root).configPath)
            (fun a => Ev.write (ocNamedDest (resolveOpenCodePaths root).pluginsDir "" a)
              (FileContent.raw (a.content ++ "\n"))) bundle.plugins (fun x _ => rfl),
          countP_map_eq_zero (isCopySrc (resolveOpenCodePaths root).configPath)
            (fun d => Ev.copyDir d.sourceDir
              (pJoin (resolveOpenCodePaths root).skillsDir d.name)) bundle.skillDirs
            (fun x _ => rfl)]
        simp [isCopySrc, isWriteTo]
      · rw [r2, hA]
        simp only [List.countP_append, List.countP_cons, List.countP_nil,
          countP_ocCmdEvents_write_zero env (resolveOpenCodePaths root).commandDir fs
            bundle.commandFiles (resolveOpenCodePaths root).configPath
            (fun f hf => (hcc f hf).1),
          countP_map_eq_zero (isWriteTo (resolveOpenCodePaths root).configPath)
            (fun a => Ev.write (ocNamedDest (resolveOpenCodePaths root).agentsDir ".md" a)
              (FileContent.raw (a.content ++ "\n"))) bundle.agents
            (fun x hx => isWriteTo_write_ne _ _ _ (hagc x hx).1),
          countP_map_eq_zero (isWriteTo (resolveOpenCodePaths root).configPath)
            (fun a => Ev.write (ocNamedDest (resolveOpenCodePaths root).pluginsDir "" a)
              (FileContent.raw (a.content ++ "\n"))) bundle.plugins
            (fun x hx => isWriteTo_write_ne _ _ _ (hpl x hx).1),
          countP_map_eq_zero (isWriteTo (resolveOpenCodePaths root).configPath)
            (fun d => Ev.copyDir d.sourceDir
              (pJoin (resolveOpenCodePaths root).skillsDir d.name)) bundle.skillDirs
            (fun x _ => rfl)]
        simp [isCopySrc, isWriteTo]
      · refine ⟨[Ev.mkdir (resolveOpenCodePaths root).root],
          [Ev.write (resolveOpenCodePaths root).configPath (FileContent.jsonF bundle.config)]
          ++ bundle.agents.map (fun a =>
              Ev.write (ocNamedDest (resolveOpenCodePaths root).agentsDir ".md" a)
                (FileContent.raw (a.content ++ "\n")))
          ++ ocCmdEvents env (resolveOpenCodePaths root).commandDir fs bundle.commandFiles
          ++ bundle.plugins.map (fun a =>
              Ev.write (ocNamedDest (resolveOpenCodePaths root).pluginsDir "" a)
                (FileContent.raw (a.content ++ "\n")))
          ++ bundle.skillDirs.map (fun d =>
              Ev.copyDir d.sourceDir (pJoin (resolveOpenCodePaths root).skillsDir d.name)),
          ?_, rfl⟩
        rw [r2, hA]
        simp [List.append_assoc]
    · intro c hc A hA
      obtain ⟨pre, post, hsplit⟩ := List.append_of_mem hc
      have hpre : ∀ f ∈ pre, ocCmdDest (resolveOpenCodePaths root).commandDir f
          ≠ ocCmdDest (resolveOpenCodePaths root).commandDir c := by
        intro f hf
        rw [hsplit] at hdd
        exact (List.pairwise_append.mp hdd).2.2 f hf c (List.mem_cons_self c post)
      have hpost : ∀ f ∈ post, ocCmdDest (resolveOpenCodePaths root).commandDir f
          ≠ ocCmdDest (resolveOpenCodePaths root).commandDir c := by
        intro f hf
        rw [hsplit] at hdd
        have := (List.pairwise_cons.mp (List.pairwise_append.mp hdd).2.1).1 f hf
        exact this.symm
      have hev : ocCmdEvents env (resolveOpenCodePaths root).commandDir fs bundle.commandFiles
          = ocCmdEvents env (resolveOpenCodePaths root).commandDir fs pre
            ++ Ev.copy (ocCmdDest (resolveOpenCodePaths root).commandDir c)
                (bakPath env (ocCmdDest (resolveOpenCodePaths root).commandDir c))
              :: Ev.write (ocCmdDest (resolveOpenCodePaths root).commandDir c)
                (FileContent.raw (c.content ++ "\n"))
              :: ocCmdEvents env (resolveOpenCodePaths root).commandDir fs post := by
        rw [hsplit, ocCmdEvents_append]
        simp only [ocCmdEvents, hA, List.cons_append, List.nil_append,
          List.singleton_append]
      have hbk0copy : (match fs.files (resolveOpenCodePaths root).configPath with
          | some _ => [Ev.copy (resolveOpenCodePaths root).configPath
              (bakPath env (resolveOpenCodePaths root).configPath)]
          | none => ([] : List Ev)).countP
            (isCopySrc (ocCmdDest (resolveOpenCodePaths root).commandDir c)) = 0 := by
        have hnecfg : (resolveOpenCodePaths root).configPath
            ≠ ocCmdDest (resolveOpenCodePaths root).commandDir c :=
          fun h => (hcc c hc).1 h.symm
        cases fs.files (resolveOpenCodePaths root).configPath with
        | none => rfl
        | some _ => simp [List.countP_cons, isCopySrc, hnecfg]
      have hbk0write : (match fs.files (resolveOpenCodePaths root).configPath with
          | some _ => [Ev.copy (resolveOpenCodePaths root).configPath
              (bakPath env (resolveOpenCodePaths root).configPath)]
          | none => ([] : List Ev)).countP
            (isWriteTo (ocCmdDest (resolveOpenCodePaths root).commandDir c)) = 0 := by
        cases fs.files (resolveOpenCodePaths root).configPath with
        | none => rfl
        | some _ => rfl
      refine ⟨r1, r6 c hc A hA, r5 c hc, ?_, ?_, ?_⟩
      · rw [r2, hev]
        simp only [List.countP_append, List.countP_cons, List.countP_nil, hbk0copy,
          countP_ocCmdEvents_copy_zero env (resolveOpenCodePaths root).commandDir fs
            pre (ocCmdDest (resolveOpenCodePaths root).commandDir c) hpre,
          countP_ocCmdEvents_copy_zero env (resolveOpenCodePaths root).commandDir fs
            post (ocCmdDest (resolveOpenCodePaths root).commandDir c) hpost,
          countP_map_eq_zero (isCopySrc (ocCmdDest (resolveOpenCodePaths root).commandDir c))
            (fun a => Ev.write (ocNamedDest (resolveOpenCodePaths root).agentsDir ".md" a)
              (FileContent.raw (a.content ++ "\n"))) bundle.agents (fun x _ => rfl),
          countP_map_eq_zero (isCopySrc (ocCmdDest (resolveOpenCodePaths root).commandDir c))
            (fun a => Ev.write (ocNamedDest (resolveOpenCodePaths root).pluginsDir "" a)
              (FileContent.raw (a.content ++ "\n"))) bundle.plugins (fun x _ => rfl),
          countP_map_eq_zero (isCopySrc (ocCmdDest (resolveOpenCodePaths root).commandDir c))
            (fun d => Ev.copyDir d.sourceDir
              (pJoin (resolveOpenCodePaths root).skillsDir d.name)) bundle.skillDirs
            (fun x _ => rfl)]
        simp [isCopySrc, isWriteTo]
      · rw [r2, hev]
        simp only [List.countP_append, List.countP_cons, List.countP_nil, hbk0write,
          countP_ocCmdEvents_write_zero env (resolveOpenCodePaths root).commandDir fs
            pre (ocCmdDest (resolveOpenCodePaths root).commandDir c) hpre,
          countP_ocCmdEvents_write_zero env (resolveOpenCodePaths root).commandDir fs
            post (ocCmdDest (resolveOpenCodePaths root).commandDir c) hpost,
          countP_map_eq_zero (isWriteTo (ocCmdDest (resolveOpenCodePaths root).commandDir c))
            (fun a => Ev.write (ocNamedDest (resolveOpenCodePaths root).agentsDir ".md" a)
              (FileContent.raw (a.content ++ "\n"))) bundle.agents
            (fun x hx => isWriteTo_write_ne _ _ _ (hag x hx c hc)),
          countP_map_eq_zero (isWriteTo (ocCmdDest (resolveOpenCodePaths root).commandDir c))
            (fun a => Ev.write (ocNamedDest (resolveOpenCodePaths root).pluginsDir "" a)
              (FileContent.raw (a.content ++ "\n"))) bundle.plugins
            (fun x hx => isWriteTo_write_ne _ _ _ ((hpl x hx).2.2 c hc).1),
          countP_map_eq_zero (isWriteTo (ocCmdDest (resolveOpenCodePaths root).commandDir c))
            (fun d => Ev.copyDir d.sourceDir
              (pJoin (resolveOpenCodePaths root).skillsDir d.name)) bundle.skillDirs
            (fun x _ => rfl),
          isWriteTo_write_ne (ocCmdDest (resolveOpenCodePaths root).commandDir c)
            (resolveOpenCodePaths root).configPath (FileContent.jsonF bundle.config)
            (fun h => (hcc c hc).1 h.symm)]
        simp [isCopySrc, isWriteTo]
      · refine ⟨[Ev.mkdir (resolveOpenCodePaths root).root]
          ++ (match fs.files (resolveOpenCodePaths root).configPath with
              | some _ => [Ev.copy (resolveOpenCodePaths root).configPath
                  (bakPath env (resolveOpenCodePaths root).configPath)]
              | none => [])
          ++ [Ev.write (resolveOpenCodePaths root).configPath (FileContent.jsonF bundle.config)]
          ++ bundle.agents.map (fun a =>
              Ev.write (ocNamedDest (resolveOpenCodePaths root).agentsDir ".md" a)
                (FileContent.raw (a.content ++ "\n")))
          ++ ocCmdEvents env (resolveOpenCodePaths root).commandDir fs pre,
          Ev.write (ocCmdDest (resolveOpenCodePaths root).commandDir c)
              (FileContent.raw (c.content ++ "\n"))
            :: ocCmdEvents env (resolveOpenCodePaths root).commandDir fs post
          ++ bundle.plugins.map (fun a =>
              Ev.write (ocNamedDest (resolveOpenCodePaths root).pluginsDir "" a)
                (FileContent.raw (a.content ++ "\n")))
          ++ bundle.skillDirs.map (fun d =>
              Ev.copyDir d.sourceDir (pJoin (resolveOpenCodePaths root).skillsDir d.name)),
          ?_, ?_⟩
        · rw [r2, hev]
          simp [List.append_assoc]
        · simp only [List.countP_append, List.countP_cons, List.countP_nil, hbk0write,
            countP_ocCmdEvents_write_zero env (resolveOpenCodePaths root).commandDir fs
              pre (ocCmdDest (resolveOpenCodePaths root).commandDir c) hpre,
            countP_map_eq_zero (isWriteTo (ocCmdDest (resolveOpenCodePaths root).commandDir c))
              (fun a => Ev.write (ocNamedDest (resolveOpenCodePaths root).agentsDir ".md" a)
                (FileContent.raw (a.content ++ "\n"))) bundle.agents
              (fun x hx => isWriteTo_write_ne _ _ _ (hag x hx c hc)),
            isWriteTo_write_ne (ocCmdDest (resolveOpenCodePaths root).commandDir c)
              (resolveOpenCodePaths root).configPath (FileContent.jsonF bundle.config)
              (fun h => (hcc c hc).1 h.symm)]
          simp [isWriteTo, isCopySrc]
  · intro env root bundle servers fs hmcp hne hfl hsk hcm c0 hc0
    obtain ⟨r1, r2, r3, r4, _r5⟩ :=
      writeGeminiBundle_run env root bundle servers fs hmcp hne hfl hsk hcm
    have hchunk :
        (match fs.files (pJoin (resolveGeminiPaths root).geminiDir "settings.json") with
          | none => [Ev.write (pJoin (resolveGeminiPaths root).geminiDir "settings.json")
              (FileContent.jsonF (geminiMergeSettings [] servers))]
          | some (FileContent.jsonF o) =>
            [Ev.copy (pJoin (resolveGeminiPaths root).geminiDir "settings.json")
              (bakPath env (pJoin (resolveGeminiPaths root).geminiDir "settings.json")),
             Ev.write (pJoin (resolveGeminiPaths root).geminiDir "settings.json")
              (FileContent.jsonF (geminiMergeSettings o servers))]
          | some (FileContent.raw _) =>
            [Ev.copy (pJoin (resolveGeminiPaths root).geminiDir "settings.json")
              (bakPath env (pJoin (resolveGeminiPaths root).geminiDir "settings.json")),
             Ev.warn "Warning: existing settings.json could not be parsed and will be replaced.",
             Ev.write (pJoin (resolveGeminiPaths root).geminiDir "settings.json")
              (FileContent.jsonF (geminiMergeSettings [] servers))]) = (match c0 with
          | FileContent.jsonF o =>
            [Ev.copy (pJoin (resolveGeminiPaths root).geminiDir "settings.json")
              (bakPath env (pJoin (resolveGeminiPaths root).geminiDir "settings.json")),
             Ev.write (pJoin (resolveGeminiPaths root).geminiDir "settings.json")
              (FileContent.jsonF (geminiMergeSettings o servers))]
          | FileContent.raw _ =>
            [Ev.copy (pJoin (resolveGeminiPaths root).geminiDir "settings.json")
              (bakPath env (pJoin (resolveGeminiPaths root).geminiDir "settings.json")),
             Ev.warn "Warning: existing settings.json could not be parsed and will be replaced.",
             Ev.write (pJoin (resolveGeminiPaths root).geminiDir "settings.json")
              (FileContent.jsonF (geminiMergeSettings [] servers))]) := by
      simp only [hc0]
      cases c0 <;> rfl
    refine ⟨r1, r4 c0 hc0, ?_, ?_, ?_⟩
    · rw [r2, hchunk]
      simp only [List.countP_append, List.countP_cons, List.countP_nil,
        countP_map_eq_zero (isCopySrc (pJoin (resolveGeminiPaths root).geminiDir "settings.json"))
          (fun f => Ev.write (genSkillDest (resolveGeminiPaths root).skillsDir f)
            (FileContent.raw (f.content ++ "\n"))) bundle.generatedSkills (fun x _ => rfl),
        countP_map_eq_zero (isCopySrc (pJoin (resolveGeminiPaths root).geminiDir "settings.json"))
          (fun d => Ev.copyDir d.sourceDir (pJoin (resolveGeminiPaths root).skillsDir d.name))
          bundle.skillDirs (fun x _ => rfl),
        countP_map_eq_zero (isCopySrc (pJoin (resolveGeminiPaths root).geminiDir "settings.json"))
          (fun f => Ev.write (gemCmdDest (resolveGeminiPaths root).commandsDir f)
            (FileContent.raw (f.content ++ "\n"))) bundle.commands (fun x _ => rfl)]
      cases c0 <;> simp [isCopySrc, isWriteTo, isWarnEv]
    · rw [r2, hchunk]
      simp only [List.countP_append, List.countP_cons, List.countP_nil,
        countP_map_eq_zero (isWriteTo (pJoin (resolveGeminiPaths root).geminiDir "settings.json"))
          (fun f => Ev.write (genSkillDest (resolveGeminiPaths root).skillsDir f)
            (FileContent.raw (f.content ++ "\n"))) bundle.generatedSkills
          (fun x hx => isWriteTo_write_ne _ _ _ (hsk x hx)),
        countP_map_eq_zero (isWriteTo (pJoin (resolveGeminiPaths root).geminiDir "settings.json"))
          (fun d => Ev.copyDir d.sourceDir (pJoin (resolveGeminiPaths root).skillsDir d.name))
          bundle.skillDirs (fun x _ => rfl),
        countP_map_eq_zero (isWriteTo (pJoin (resolveGeminiPaths root).geminiDir "settings.json"))
          (fun f => Ev.write (gemCmdDest (resolveGeminiPaths root).commandsDir f)
            (FileContent.raw (f.content ++ "\n"))) bundle.commands
          (fun x hx => isWriteTo_write_ne _ _ _ (hcm x hx))]
      cases c0 <;> simp [isCopySrc, isWriteTo, isWarnEv]
    · have hcount0 : ([Ev.mkdir (resolveGeminiPaths root).geminiDir]
          ++ bundle.generatedSkills.map (fun f =>
              Ev.write (genSkillDest (resolveGeminiPaths root).skillsDir f)
                (FileContent.raw (f.content ++ "\n")))
          ++ bundle.skillDirs.map (fun d =>
              Ev.copyDir d.sourceDir (pJoin (resolveGeminiPaths root).skillsDir d.name))
          ++ bundle.commands.map (fun f =>
              Ev.write (gemCmdDest (resolveGeminiPaths root).commandsDir f)
                (FileContent.raw (f.content ++ "\n")))).countP
            (isWriteTo (pJoin (resolveGeminiPaths root).geminiDir "settings.json")) = 0 := by
        simp only [List.countP_append, List.countP_cons, List.countP_nil,
          countP_map_eq_zero (isWriteTo (pJoin (resolveGeminiPaths root).geminiDir "settings.json"))
            (fun f => Ev.write (genSkillDest (resolveGeminiPaths root).skillsDir f)
              (FileContent.raw (f.content ++ "\n"))) bundle.generatedSkills
            (fun x hx => isWriteTo_write_ne _ _ _ (hsk x hx)),
          countP_map_eq_zero (isWriteTo (pJoin (resolveGeminiPaths root).geminiDir "settings.json"))
            (fun d => Ev.copyDir d.sourceDir (pJoin (resolveGeminiPaths root).skillsDir d.name))
            bundle.skillDirs (fun x _ => rfl),
          countP_map_eq_zero (isWriteTo (pJoin (resolveGeminiPaths root).geminiDir "settings.json"))
            (fun f => Ev.write (gemCmdDest (resolveGeminiPaths root).commandsDir f)
              (FileContent.raw (f.content ++ "\n"))) bundle.commands
            (fun x hx => isWriteTo_write_ne _ _ _ (hcm x hx))]
        rfl
      cases c0 with
      | jsonF o =>
        refine ⟨[Ev.mkdir (resolveGeminiPaths root).geminiDir]
          ++ bundle.generatedSkills.map (fun f =>
              Ev.write (genSkillDest (resolveGeminiPaths root).skillsDir f)
                (FileContent.raw (f.content ++ "\n")))
          ++ bundle.skillDirs.map (fun d =>
              Ev.copyDir d.sourceDir (pJoin (resolveGeminiPaths root).skillsDir d.name))
          ++ bundle.commands.map (fun f =>
              Ev.write (gemCmdDest (resolveGeminiPaths root).commandsDir f)
                (FileContent.raw (f.content ++ "\n"))),
          [Ev.write (pJoin (resolveGeminiPaths root).geminiDir "settings.json")
            (FileContent.jsonF (geminiMergeSettings o servers))], ?_, hcount0⟩
        rw [r2, hc0]
      | raw A =>
        refine ⟨[Ev.mkdir (resolveGeminiPaths root).geminiDir]
          ++ bundle.generatedSkills.map (fun f =>
              Ev.write (genSkillDest (resolveGeminiPaths root).skillsDir f)
                (FileContent.raw (f.content ++ "\n")))
          ++ bundle.skillDirs.map (fun d =>
              Ev.copyDir d.sourceDir (pJoin (resolveGeminiPaths root).skillsDir d.name))
          ++ bundle.commands.map (fun f =>
              Ev.write (gemCmdDest (resolveGeminiPaths root).commandsDir f)
                (FileContent.raw (f.content ++ "\n"))),
          [Ev.warn "Warning: existing settings.json could not be parsed and will be replaced.",
           Ev.write (pJoin (resolveGeminiPaths root).geminiDir "settings.json")
            (FileContent.jsonF (geminiMergeSettings [] servers))], ?_, hcount0⟩
        rw [r2, hc0]

/-- Witness for `claim_C3_amended`: concrete OpenCode run with an existing
config and an existing command file, and a concrete Gemini run with an
existing `settings.json`. -/
theorem claim_C3_amended_witness :
    (writeOpenCodeBundle ⟨fun _ => false, "T"⟩ "/r/.opencode"
      ⟨[("k", JVal.atom "new")], [], [⟨"cmd", "cnt"⟩], [], []⟩
      ⟨fun p => if p = "/r/.opencode/opencode.json"
        then some (FileContent.jsonF [("old", JVal.atom "1")])
        else if p = "/r/.opencode/commands/cmd.md" then some (FileContent.raw "old")
        else none⟩).s.fs.files "/r/.opencode/opencode.json.bak.T"
      = some (FileContent.jsonF [("old", JVal.atom "1")]) ∧
    (writeOpenCodeBundle ⟨fun _ => false, "T"⟩ "/r/.opencode"
      ⟨[("k", JVal.atom "new")], [], [⟨"cmd", "cnt"⟩], [], []⟩
      ⟨fun p => if p = "/r/.opencode/opencode.json"
        then some (FileContent.jsonF [("old", JVal.atom "1")])
        else if p = "/r/.opencode/commands/cmd.md" then some (FileContent.raw "old")
        else none⟩).s.fs.files "/r/.opencode/commands/cmd.md.bak.T"
      = some (FileContent.raw "old") ∧
    (writeGeminiBundle ⟨fun _ => false, "T"⟩ "/g" ⟨[], [], [], some [("a", "1")]⟩
      ⟨fun p => if p = "/g/.gemini/settings.json"
        then some (FileContent.jsonF [("model", JVal.atom "m")]) else none⟩).s.fs.files
      "/g/.gemini/settings.json.bak.T" = some (FileContent.jsonF [("model", JVal.atom "m")]) := by
  have h1 := (claim_C3_amended.1 ⟨fun _ => false, "T"⟩ "/r/.opencode"
    ⟨[("k", JVal.atom "new")], [], [⟨"cmd", "cnt"⟩], [], []⟩
    ⟨fun p => if p = "/r/.opencode/opencode.json"
      then some (FileContent.jsonF [("old", JVal.atom "1")])
      else if p = "/r/.opencode/commands/cmd.md" then some (FileContent.raw "old")
      else none⟩
    rfl (by decide) (by decide) (by decide) (by decide) (by decide) (by decide) (by decide))
  have h2 := claim_C3_amended.2 ⟨fun _ => false, "T"⟩ "/g" ⟨[], [], [], some [("a", "1")]⟩
    [("a", "1")]
    ⟨fun p => if p = "/g/.gemini/settings.json"
      then some (FileContent.jsonF [("model", JVal.atom "m")]) else none⟩
    rfl rfl rfl (by decide) (by decide)
    (FileContent.jsonF [("model", JVal.atom "m")]) (by decide)
  refine ⟨?_, ?_, ?_⟩
  · exact (h1.1 (FileContent.jsonF [("old", JVal.atom "1")]) (by decide)).2.1
  · exact (h1.2 ⟨"cmd", "cnt"⟩ (by decide) (FileContent.raw "old") (by decide)).2.1
  · exact h2.2.1

theorem splitSep_append (sep : Char) (a b : List Char) (ha : sep ∉ a) :
    splitSep sep (a ++ sep :: b) = a :: splitSep sep b := by
  induction a with
  | nil =>
    show splitSep sep (sep :: b) = [] :: splitSep sep b
    simp [splitSep]
  | cons c a' ih =>
    have hc : c ≠ sep := fun h => ha (h ▸ List.mem_cons_self c a')
    have ha' : sep ∉ a' := fun h => ha (List.mem_cons_of_mem c h)
    show splitSep sep (c :: (a' ++ sep :: b)) = (c :: a') :: splitSep sep b
    rw [splitSep, if_neg hc, ih ha']

theorem splitSep_no_sep (sep : Char) (b : List Char) (hb : sep ∉ b) :
    splitSep sep b = [b] := by
  induction b with
  | nil => rfl
  | cons c b' ih =>
    have hc : c ≠ sep := fun h => hb (h ▸ List.mem_cons_self c b')
    have hb' : sep ∉ b' := fun h => hb (List.mem_cons_of_mem c h)
    rw [splitSep, if_neg hc, ih hb']

theorem intercalate_pair (x y : String) : String.intercalate "/" [x, y] = x ++ "/" ++ y := by
  simp [String.intercalate, String.intercalate.go]

/-- Claim C8: a colon-delimited command name maps to a slash-delimited path
key (`group:item` becomes `normalize(group)/normalize(item)`), and the Gemini
writer writes that command to `<commandsDir>/<group>/<item>.toml`, succeeding
with the intermediate directory implied by the path (directory creation is
part of the modelled `writeText`, which cannot fail). -/
theorem claim_C8_namespaced_commands (g i root content : String) (env : WEnv) (fs : FS)
    (hg : ':' ∉ g.data) (hi : ':' ∉ i.data) :
    commandPathKey (g ++ ":" ++ i) = normalizeName g ++ "/" ++ normalizeName i ∧
    (writeGeminiBundle env root
      ⟨[], [], [⟨commandPathKey (g ++ ":" ++ i), content⟩], none⟩ fs).err = none ∧
    (writeGeminiBundle env root
      ⟨[], [], [⟨commandPathKey (g ++ ":" ++ i), content⟩], none⟩ fs).s.fs.files
        (pJoin (resolveGeminiPaths root).commandsDir
          (normalizeName g ++ "/" ++ normalizeName i ++ ".toml"))
      = some (FileContent.raw (content ++ "\n")) := by
  have hdata : (g ++ ":" ++ i).data = g.data ++ ':' :: i.data := by
    rw [sdata_append, sdata_append]
    simp [List.append_assoc]
  have hsplit : splitSep ':' (g ++ ":" ++ i).data = [g.data, i.data] := by
    rw [hdata, splitSep_append ':' g.data i.data hg, splitSep_no_sep ':' i.data hi]
  have hkey : commandPathKey (g ++ ":" ++ i) = normalizeName g ++ "/" ++ normalizeName i := by
    rw [commandPathKey, resolveCommandPath, hsplit]
    show String.intercalate "/" [normalizeName (String.mk g.data), normalizeName (String.mk i.data)]
      = _
    exact intercalate_pair _ _
  refine ⟨hkey, rfl, ?_⟩
  rw [← hkey]
  show (setFile fs
    (pJoin (resolveGeminiPaths root).commandsDir (commandPathKey (g ++ ":" ++ i) ++ ".toml"))
    (FileContent.raw (content ++ "\n"))).files
      (pJoin (resolveGeminiPaths root).commandsDir
        (commandPathKey (g ++ ":" ++ i) ++ ".toml")) = some (FileContent.raw (content ++ "\n"))
  exact setFile_eq _ _ _

/-- Witness for `claim_C8_namespaced_commands`: `workflows:plan` is written
to `.gemini/commands/workflows/plan.toml`. -/
theorem claim_C8_namespaced_commands_witness :
    commandPathKey ("workflows" ++ ":" ++ "plan") = "workflows/plan" ∧
    (writeGeminiBundle ⟨fun _ => false, "T"⟩ "/p"
      ⟨[], [], [⟨commandPathKey ("workflows" ++ ":" ++ "plan"), "c"⟩], none⟩
      ⟨fun _ => none⟩).s.fs.files "/p/.gemini/commands/workflows/plan.toml"
      = some (FileContent.raw "c\n") := by
  have h := claim_C8_namespaced_commands "workflows" "plan" "/p" "c" ⟨fun _ => false, "T"⟩
    ⟨fun _ => none⟩ (by decide) (by decide)
  refine ⟨h.1.trans (by decide), ?_⟩
  have h2 := h.2.2
  rw [show (normalizeName "workflows" ++ "/" ++ normalizeName "plan" : String)
    = "workflows/plan" from by decide] at h2
  exact h2

/-! ## Whitespace normalization facts for `sanitizeDescription` -/

theorem mem_collapse_ws_space (l : List Char) :
    ∀ c ∈ replaceRuns isWsChar ' ' l, isWsChar c = true → c = ' ' := by
  induction l with
  | nil =>
    intro c hc
    exact absurd hc (List.not_mem_nil c)
  | cons a rest ih =>
    intro c hc hw
    cases ha : isWsChar a with
    | false =>
      rw [show replaceRuns isWsChar ' ' (a :: rest) = a :: replaceRuns isWsChar ' ' rest from by
        simp [replaceRuns, ha]] at hc
      rcases List.mem_cons.mp hc with h | h
      · subst h
        rw [ha] at hw
        exact absurd hw (by simp)
      · exact ih c h hw
    | true =>
      cases rest with
      | nil =>
        rw [show replaceRuns isWsChar ' ' [a] = [' '] from by simp [replaceRuns, ha]] at hc
        simpa using hc
      | cons e rest' =>
        cases he : isWsChar e with
        | true =>
          rw [show replaceRuns isWsChar ' ' (a :: e :: rest')
              = replaceRuns isWsChar ' ' (e :: rest') from by
            simp [replaceRuns, ha, he]] at hc
          exact ih c hc hw
        | false =>
          rw [show replaceRuns isWsChar ' ' (a :: e :: rest')
              = ' ' :: replaceRuns isWsChar ' ' (e :: rest') from by
            simp [replaceRuns, ha, he]] at hc
          rcases List.mem_cons.mp hc with h | h
          · exact h
          · exact ih c h hw

theorem chain'_collapse (l : List Char) :
    List.Chain' (fun a b => ¬(isWsChar a = true ∧ isWsChar b = true))
      (replaceRuns isWsChar ' ' l) := by
  induction l with
  | nil => simp [replaceRuns]
  | cons a rest ih =>
    cases ha : isWsChar a with
    | false =>
      rw [show replaceRuns isWsChar ' ' (a :: rest) = a :: replaceRuns isWsChar ' ' rest from by
        simp [replaceRuns, ha]]
      rw [List.chain'_cons']
      refine ⟨?_, ih⟩
      intro y _ hcontra
      rw [ha] at hcontra
      exact absurd hcontra.1 (by simp)
    | true =>
      cases rest with
      | nil =>
        rw [show replaceRuns isWsChar ' ' [a] = [' '] from by simp [replaceRuns, ha]]
        simp
      | cons e rest' =>
        cases he : isWsChar e with
        | true =>
          rw [show replaceRuns isWsChar ' ' (a :: e :: rest')
              = replaceRuns isWsChar ' ' (e :: rest') from by
            simp [replaceRuns, ha, he]]
          exact ih
        | false =>
          rw [show replaceRuns isWsChar ' ' (a :: e :: rest')
              = ' ' :: replaceRuns isWsChar ' ' (e :: rest') from by
            simp [replaceRuns, ha, he]]
          rw [show replaceRuns isWsChar ' ' (e :: rest')
              = e :: replaceRuns isWsChar ' ' rest' from by
            simp [replaceRuns, he]] at ih ⊢
          rw [List.chain'_cons]
          refine ⟨?_, ih⟩
          intro hcontra
          rw [he] at hcontra
          exact absurd hcontra.2 (by simp)

theorem chain'_dropWhile_pres {R : Char → Char → Prop} (p : Char → Bool) (l : List Char)
    (h : List.Chain' R l) : List.Chain' R (l.dropWhile p) := by
  induction l with
  | nil => exact h
  | cons c rest ih =>
    cases hp : p c with
    | true =>
      rw [show (c :: rest).dropWhile p = rest.dropWhile p from by simp [List.dropWhile, hp]]
      exact ih h.tail
    | false =>
      rw [show (c :: rest).dropWhile p = c :: rest from by simp [List.dropWhile, hp]]
      exact h

theorem chain'_ws_reverse (l : List Char)
    (h : List.Chain' (fun a b => ¬(isWsChar a = true ∧ isWsChar b = true)) l) :
    List.Chain' (fun a b => ¬(isWsChar a = true ∧ isWsChar b = true)) l.reverse :=
  List.chain'_reverse.mpr (h.imp fun a b hab hc => hab ⟨hc.2, hc.1⟩)

theorem head?_dropWhile_false (p : Char → Bool) (l : List Char) (d : Char)
    (h : (l.dropWhile p).head? = some d) : p d = false := by
  induction l with
  | nil => exact absurd h (by simp)
  | cons c rest ih =>
    cases hp : p c with
    | true =>
      rw [show (c :: rest).dropWhile p = rest.dropWhile p from by simp [List.dropWhile, hp]] at h
      exact ih h
    | false =>
      rw [show (c :: rest).dropWhile p = c :: rest from by simp [List.dropWhile, hp]] at h
      injection h with hh
      rw [← hh]
      exact hp

theorem getLast?_append_right (x y : List Char) (hy : y ≠ []) :
    (x ++ y).getLast? = y.getLast? := by
  rw [← List.head?_reverse y, ← List.head?_reverse (x ++ y), List.reverse_append]
  cases hyr : y.reverse with
  | nil =>
    have : y = [] := by
      have := congrArg List.reverse hyr
      simpa using this
    exact absurd this hy
  | cons c t => simp

theorem head?_append_left (x y : List Char) (hx : x ≠ []) : (x ++ y).head? = x.head? := by
  cases x with
  | nil => exact absurd rfl hx
  | cons c t => rfl

theorem exists_append_trimEnd (x : List Char) : ∃ t, x = trimEndList x ++ t := by
  refine ⟨(x.reverse.takeWhile isWsChar).reverse, ?_⟩
  rw [trimEndList]
  conv_lhs => rw [← List.reverse_reverse x,
    ← List.takeWhile_append_dropWhile isWsChar x.reverse, List.reverse_append]

theorem head?_trimEnd (x : List Char) (h : trimEndList x ≠ []) :
    (trimEndList x).head? = x.head? := by
  obtain ⟨t, ht⟩ := exists_append_trimEnd x
  conv_rhs => rw [ht]
  rw [head?_append_left _ _ h]

theorem getLast?_trimEnd_false (x : List Char) (d : Char)
    (h : (trimEndList x).getLast? = some d) : isWsChar d = false := by
  rw [trimEndList, List.getLast?_reverse] at h
  exact head?_dropWhile_false isWsChar x.reverse d h

theorem mem_trimEnd (x : List Char) (c : Char) (h : c ∈ trimEndList x) : c ∈ x := by
  rw [trimEndList, List.mem_reverse] at h
  have := (List.dropWhile_sublist isWsChar).subset h
  rwa [List.mem_reverse] at this

theorem mem_trimList (x : List Char) (c : Char) (h : c ∈ trimList x) : c ∈ x := by
  have h1 : c ∈ x.dropWhile isWsChar := mem_trimEnd (x.dropWhile isWsChar) c h
  exact (List.dropWhile_sublist isWsChar).subset h1

theorem trimList_eq_trimEnd_dropWhile (x : List Char) :
    trimList x = trimEndList (x.dropWhile isWsChar) := rfl

theorem chain'_trimEnd (x : List Char)
    (h : List.Chain' (fun a b => ¬(isWsChar a = true ∧ isWsChar b = true)) x) :
    List.Chain' (fun a b => ¬(isWsChar a = true ∧ isWsChar b = true)) (trimEndList x) := by
  rw [trimEndList]
  exact chain'_ws_reverse _ (chain'_dropWhile_pres isWsChar _ (chain'_ws_reverse x h))

theorem head?_trimList_false (x : List Char) (d : Char)
    (h : (trimList x).head? = some d) : isWsChar d = false := by
  rw [trimList_eq_trimEnd_dropWhile] at h
  have hne : trimEndList (x.dropWhile isWsChar) ≠ [] := by
    intro hnil
    rw [hnil] at h
    exact Option.noConfusion h
  rw [head?_trimEnd _ hne] at h
  exact head?_dropWhile_false isWsChar x d h

theorem getLast?_trimList_false (x : List Char) (d : Char)
    (h : (trimList x).getLast? = some d) : isWsChar d = false := by
  rw [trimList_eq_trimEnd_dropWhile] at h
  exact getLast?_trimEnd_false _ d h

theorem noDoubleWs_iff_chain' : ∀ (l : List Char),
    (noDoubleWs l = true ↔
      List.Chain' (fun a b => ¬(isWsChar a = true ∧ isWsChar b = true)) l)
  | [] => by simp [noDoubleWs]
  | [c] => by simp [noDoubleWs]
  | a :: b :: rest => by
    rw [noDoubleWs, List.chain'_cons, Bool.and_eq_true, noDoubleWs_iff_chain' (b :: rest)]
    constructor
    · rintro ⟨h1, h2⟩
      refine ⟨?_, h2⟩
      intro hcontra
      rw [hcontra.1, hcontra.2] at h1
      simp at h1
    · rintro ⟨h1, h2⟩
      refine ⟨?_, h2⟩
      by_cases hwa : isWsChar a = true
      · by_cases hwb : isWsChar b = true
        · exact absurd ⟨hwa, hwb⟩ h1
        · simp [hwa, hwb]
      · simp [hwa]

/-- The collapse-and-trim normal form is whitespace-normalized. -/
theorem wsNormalizedB_normalized (l : List Char) :
    wsNormalizedB (trimList (replaceRuns isWsChar ' ' l)) = true := by
  rw [wsNormalizedB, Bool.and_eq_true, Bool.and_eq_true]
  refine ⟨⟨?_, ?_⟩, ?_⟩
  · rw [allWsSpace, List.all_eq_true]
    intro c hc
    by_cases hw : isWsChar c = true
    · have := mem_collapse_ws_space l c (mem_trimList _ c hc) hw
      simp [this]
    · simp [Bool.not_eq_true] at hw
      simp [hw]
  · rw [noDoubleWs_iff_chain']
    rw [trimList_eq_trimEnd_dropWhile]
    exact chain'_trimEnd _ (chain'_dropWhile_pres isWsChar _ (chain'_collapse l))
  · rw [noEdgeWs, Bool.and_eq_true]
    constructor
    · cases hh : (trimList (replaceRuns isWsChar ' ' l)).head? with
      | none => simp
      | some d => simp [head?_trimList_false _ d hh]
    · cases hh : (trimList (replaceRuns isWsChar ' ' l)).getLast? with
      | none => simp
      | some d => simp [getLast?_trimList_false _ d hh]

theorem trimEnd_length_le (x : List Char) : (trimEndList x).length ≤ x.length := by
  rw [trimEndList, List.length_reverse]
  have := (List.dropWhile_sublist isWsChar (l := x.reverse)).length_le
  rwa [List.length_reverse] at this

theorem head?_take_pos (l : List Char) (n : Nat) (hn : 0 < n) : (l.take n).head? = l.head? := by
  cases n with
  | zero => exact absurd hn (by simp)
  | succ m => cases l <;> rfl

theorem chain'_normalized (l : List Char) :
    List.Chain' (fun a b => ¬(isWsChar a = true ∧ isWsChar b = true))
      (trimList (replaceRuns isWsChar ' ' l)) := by
  rw [trimList_eq_trimEnd_dropWhile]
  exact chain'_trimEnd _ (chain'_dropWhile_pres isWsChar _ (chain'_collapse l))

theorem mem_take_of_mem (l : List Char) (n : Nat) (c : Char) (h : c ∈ l.take n) : c ∈ l :=
  (List.take_sublist n l).subset h

/-- Claim C10: for every agent, the description of the generated Gemini skill
is the agent's description (or the default) with whitespace runs collapsed to
single spaces and trimmed, its length never exceeds 1024, and when the
normalized description exceeds the limit it is truncated to a head of the
normalized text and suffixed with `...` while still staying within 1024. -/
theorem claim_C10_description_sanitized (agentName : String) (description : Option String) :
    (geminiSkillDescription agentName description).length ≤ GEMINI_DESCRIPTION_MAX_LENGTH ∧
    wsNormalizedB (geminiSkillDescription agentName description).data = true ∧
    ((normalizeWsStr (description.getD ("Use this skill for " ++ agentName ++ " tasks"))).length
        ≤ GEMINI_DESCRIPTION_MAX_LENGTH →
      geminiSkillDescription agentName description
        = normalizeWsStr (description.getD ("Use this skill for " ++ agentName ++ " tasks"))) ∧
    ((normalizeWsStr (description.getD ("Use this skill for " ++ agentName ++ " tasks"))).length
        > GEMINI_DESCRIPTION_MAX_LENGTH →
      ∃ p t, geminiSkillDescription agentName description = p ++ "..." ∧
        (p ++ "...").length ≤ GEMINI_DESCRIPTION_MAX_LENGTH ∧
        (normalizeWsStr (description.getD ("Use this skill for " ++ agentName ++ " tasks"))).data
          = p.data ++ t) := by
  set v := description.getD ("Use this skill for " ++ agentName ++ " tasks") with hv
  set n := trimList (replaceRuns isWsChar ' ' v.data) with hn
  have hlen_norm : (normalizeWsStr v).length = n.length := rfl
  have hdesc : geminiSkillDescription agentName description = sanitizeDescription v := rfl
  by_cases h : n.length ≤ GEMINI_DESCRIPTION_MAX_LENGTH
  · have hred : sanitizeDescription v = String.mk n := by
      rw [sanitizeDescription]
      exact if_pos h
    refine ⟨?_, ?_, ?_, ?_⟩
    · rw [hdesc, hred]
      exact h
    · rw [hdesc, hred]
      exact wsNormalizedB_normalized v.data
    · intro _
      rw [hdesc, hred]
      rfl
    · intro hgt
      rw [hlen_norm] at hgt
      omega
  · have hred : sanitizeDescription v
        = String.mk (trimEndList (n.take (GEMINI_DESCRIPTION_MAX_LENGTH - 3))) ++ "..." := by
      rw [sanitizeDescription]
      exact if_neg h
    set w := trimEndList (n.take (GEMINI_DESCRIPTION_MAX_LENGTH - 3)) with hw
    have hwlen : w.length ≤ GEMINI_DESCRIPTION_MAX_LENGTH - 3 := by
      calc w.length ≤ (n.take (GEMINI_DESCRIPTION_MAX_LENGTH - 3)).length :=
            trimEnd_length_le _
        _ ≤ GEMINI_DESCRIPTION_MAX_LENGTH - 3 := n.length_take_le _
    have hmax : GEMINI_DESCRIPTION_MAX_LENGTH = 1024 := rfl
    refine ⟨?_, ?_, ?_, ?_⟩
    · rw [hdesc, hred, String.length_append]
      have h3 : ("..." : String).length = 3 := rfl
      have hmk : (String.mk w).length = w.length := rfl
      omega
    · rw [hdesc, hred]
      show wsNormalizedB (w ++ ['.', '.', '.']) = true
      rw [wsNormalizedB, Bool.and_eq_true, Bool.and_eq_true]
      refine ⟨⟨?_, ?_⟩, ?_⟩
      · rw [allWsSpace, List.all_eq_true]
        intro c hc
        rcases List.mem_append.mp hc with hcw | hcd
        · have hcn : c ∈ n := mem_take_of_mem n _ c (mem_trimEnd _ c hcw)
          by_cases hwc : isWsChar c = true
          · have := mem_collapse_ws_space v.data c (mem_trimList _ c hcn) hwc
            simp [this]
          · simp [Bool.not_eq_true] at hwc
            simp [hwc]
        · have : c = '.' := by simpa using hcd
          subst this
          decide
      · rw [noDoubleWs_iff_chain', List.chain'_append]
        refine ⟨?_, ?_, ?_⟩
        · rw [hw]
          exact chain'_trimEnd _ ((chain'_normalized v.data).take _)
        · rw [List.chain'_cons, List.chain'_cons]
          exact ⟨fun hc => absurd hc.1 (by decide), fun hc => absurd hc.1 (by decide),
            List.chain'_singleton _⟩
        · intro x _ y hy
          have hy' : '.' = y := by simpa using hy
          subst hy'
          intro hcontra
          exact absurd hcontra.2 (by decide)
      · rw [noEdgeWs, Bool.and_eq_true]
        constructor
        · cases hwnil : w with
          | nil => decide
          | cons c t =>
            rw [← hwnil, head?_append_left _ _ (by rw [hwnil]; exact List.cons_ne_nil c t)]
            have hne : w ≠ [] := by rw [hwnil]; exact List.cons_ne_nil c t
            rw [hw] at hne ⊢
            rw [head?_trimEnd _ hne,
              head?_take_pos n (GEMINI_DESCRIPTION_MAX_LENGTH - 3) (by rw [hmax]; omega)]
            cases hh : n.head? with
            | none => simp
            | some d =>
              have := head?_trimList_false (replaceRuns isWsChar ' ' v.data) d (by rw [← hn]; exact hh)
              simp [this]
        · rw [getLast?_append_right _ _ (by simp)]
          decide
    · intro hle
      rw [hlen_norm] at hle
      omega
    · intro _
      obtain ⟨t1, ht1⟩ := exists_append_trimEnd (n.take (GEMINI_DESCRIPTION_MAX_LENGTH - 3))
      refine ⟨String.mk w, t1 ++ n.drop (GEMINI_DESCRIPTION_MAX_LENGTH - 3), ?_, ?_, ?_⟩
      · rw [hdesc, hred]
      · rw [String.length_append]
        have h3 : ("..." : String).length = 3 := rfl
        have hmk : (String.mk w).length = w.length := rfl
        omega
      · show n = (String.mk w).data ++ (t1 ++ n.drop (GEMINI_DESCRIPTION_MAX_LENGTH - 3))
        have hmkd : (String.mk w).data = w := rfl
        rw [hmkd, ← List.append_assoc, ← ht1, List.take_append_drop]

set_option maxRecDepth 10000 in
/-- Witness for `claim_C10_description_sanitized` at a 1030-character
description: the normalized text exceeds the limit, and the generated
description is a truncated head of it suffixed with `...` within the limit. -/
theorem claim_C10_description_sanitized_witness :
    ∃ p t, geminiSkillDescription "a" (some (String.mk (List.replicate 1030 'x')))
        = p ++ "..." ∧
      (p ++ "...").length ≤ GEMINI_DESCRIPTION_MAX_LENGTH ∧
      (normalizeWsStr ((some (String.mk (List.replicate 1030 'x'))).getD
        ("Use this skill for " ++ "a" ++ " tasks"))).data = p.data ++ t :=
  (claim_C10_description_sanitized "a"
    (some (String.mk (List.replicate 1030 'x')))).2.2.2 (by decide)
